import Mathlib

/-!
# Statsd mapping generation of the rate-limit operator

A shallow embedding of `pkg/service/configmap_statsd_builder.go`
(`NewStatsdConfig`, `NewMetricMappingFromGlobalRateLimit`,
`NewStatsdRegexMatcherFromGlobalRateLimitMatcher`, `NewDefaultMetricMapping`,
`MatchString`, `mergeMaps`) together with theorems about it.

Conventions of the embedding:

* a Go `string` is a Lean `String`; the only characters the code inspects are
  the ASCII characters `.` and `-`, so splitting and replacing character-wise
  agrees with Go's byte-wise functions on UTF-8 text;
* a Go `map[string]string` is an association list with pairwise distinct keys
  (`AList`); `m[k] = v` is `AList.insert`, a `range` loop visits the entries in
  list order, and two association lists denote the same Go map exactly when
  their entries are permutations of each other;
* a Go pointer (`*string`, a pointer field, an element of a slice of pointers) is an
  `Option`; dereferencing `nil` is the run-time panic `Panic.nilDereference`;
* a function that can panic returns `Except Panic`.
-/

namespace Service

/-! ## Go run-time and library functions used by the source -/

/-- Run-time panics the embedded functions can raise. -/
inductive Panic where
  | nilDereference
  | sliceBoundsOutOfRange
  deriving DecidableEq, Repr

/-- The Go `error` interface value: `none` is `nil`. -/
abbrev error := Option String

/-- Dereference `*p` of a Go pointer. -/
def deref {α : Type} : Option α → Except Panic α
  | some v => .ok v
  | none => .error .nilDereference

/-- Go `strings.Split(s, sep)` for a one-character separator. -/
def strings.Split (s : String) (sep : Char) : List String :=
  (s.data.splitOn sep).map String.mk

/-- Go `strings.Join(elems, sep)`. -/
def strings.Join : List String → String → String
  | [], _ => ""
  | [a], _ => a
  | a :: b :: rest, sep => a ++ sep ++ strings.Join (b :: rest) sep

/-- Go `strings.Replace(s, old, new, -1)` for one-character `old` and `new`. -/
def strings.Replace (s : String) (old new : Char) : String :=
  String.mk (s.data.map fun c => if c = old then new else c)

/-- Go `prometheus.Labels`, a `map[string]string`. -/
abbrev prometheus.Labels := AList (fun _ : String => String)

/-! ## Types of the packages `v1alpha1` and `types` -/

/-- Modelled from the spec: the declaration of `types.ObserverType` is not part
of the sources at hand; it is a string type whose zero value is `""`. -/
abbrev types.ObserverType := String

/-- Modelled from the spec: the declaration of `types.MetricType` is not part of
the sources at hand; it is a string type whose zero value is `""`. -/
abbrev types.MetricType := String

/-- Modelled from the spec: the constant `types.ObserverTypeHistogram`
(metric kind Histogram), declared outside the sources at hand. -/
def types.ObserverTypeHistogram : types.ObserverType := "histogram"

/-- Modelled from the spec: the constant `types.MetricTypeCounter`
(metric kind Counter), declared outside the sources at hand. -/
def types.MetricTypeCounter : types.MetricType := "counter"

/-- The fields of `types.MetricMapping` the source assigns. A field a composite
literal leaves out holds its zero value (`""`, the empty map). -/
structure types.MetricMapping where
  Name : String
  Match : String
  MatchType : String := ""
  TimerType : types.ObserverType := ""
  MatchMetricType : types.MetricType := ""
  Labels : prometheus.Labels := ∅
  deriving DecidableEq

/-- Go `types.MetricMapper`. -/
structure types.MetricMapper where
  Mappings : List types.MetricMapping := []
  deriving DecidableEq

/-- Action variant `RequestHeaders`. -/
structure v1alpha1.GlobalRateLimit_Action_RequestHeaders where
  DescriptorKey : String
  deriving DecidableEq

/-- Action variant `RemoteAddress` (no field is read). -/
structure v1alpha1.GlobalRateLimit_Action_RemoteAddress where
  deriving DecidableEq

/-- Action variant `GenericKey`; `DescriptorKey` is a `*string`. -/
structure v1alpha1.GlobalRateLimit_Action_GenericKey where
  DescriptorValue : String
  DescriptorKey : Option String := none
  deriving DecidableEq

/-- Action variant `HeaderValueMatch`. -/
structure v1alpha1.GlobalRateLimit_Action_HeaderValueMatch where
  DescriptorValue : String
  deriving DecidableEq

/-- Go `v1alpha1.GlobalRateLimit_Action`: one pointer field per variant. -/
structure v1alpha1.GlobalRateLimit_Action where
  RequestHeaders : Option v1alpha1.GlobalRateLimit_Action_RequestHeaders := none
  RemoteAddress : Option v1alpha1.GlobalRateLimit_Action_RemoteAddress := none
  GenericKey : Option v1alpha1.GlobalRateLimit_Action_GenericKey := none
  HeaderValueMatch : Option v1alpha1.GlobalRateLimit_Action_HeaderValueMatch := none
  deriving DecidableEq

/-- Go `v1alpha1.GlobalRateLimitSelector`; `Route` is a `*string`. -/
structure v1alpha1.GlobalRateLimitSelector where
  Route : Option String := none
  deriving DecidableEq

/-- The fields of `v1alpha1.GlobalRateLimitSpec` the source reads. `Matcher` is
a slice of action pointers (`[]*GlobalRateLimit_Action`): an element may be nil. -/
structure v1alpha1.GlobalRateLimitSpec where
  Selector : v1alpha1.GlobalRateLimitSelector := {}
  Matcher : List (Option v1alpha1.GlobalRateLimit_Action) := []
  Identifier : Option String := none
  DetailedMetric : Bool := false
  deriving DecidableEq

/-- Go `v1alpha1.GlobalRateLimit`: the object name and the spec. -/
structure v1alpha1.GlobalRateLimit where
  Name : String
  Spec : v1alpha1.GlobalRateLimitSpec
  deriving DecidableEq

/-! ## The functions of `configmap_statsd_builder.go` -/

/-- The `for index, matcher := range matchers` loop of
`NewStatsdRegexMatcherFromGlobalRateLimitMatcher`: `index` is the loop index,
the list holds the elements still to visit, `regex` is the accumulator. The first
statement of the body reads `matcher.RequestHeaders`, which panics when the element
`matcher` is a nil pointer. -/
def NewStatsdRegexMatcherFromGlobalRateLimitMatcher.loop (matchersLength : Nat) :
    Nat → List (Option v1alpha1.GlobalRateLimit_Action) → String → Except Panic String
  | _, [], regex => .ok regex
  | _, none :: _, _ => .error .nilDereference
  | index, some matcher :: rest, regex =>
    let regex :=
      match matcher.RequestHeaders with
      | some requestHeaders => regex ++ requestHeaders.DescriptorKey
      | none => regex
    let regex :=
      match matcher.RemoteAddress with
      | some _ => regex ++ "remote_address"
      | none => regex
    let regex :=
      match matcher.GenericKey with
      | some genericKey =>
        match genericKey.DescriptorKey with
        | some descriptorKey => regex ++ descriptorKey ++ "_" ++ genericKey.DescriptorValue
        | none => regex ++ "generic_key" ++ "_" ++ genericKey.DescriptorValue
      | none => regex
    let regex :=
      match matcher.HeaderValueMatch with
      | some headerValueMatch => regex ++ "header_match" ++ "_" ++ headerValueMatch.DescriptorValue
      | none => regex
    let regex := if index + 1 != matchersLength then regex ++ "." else regex
    NewStatsdRegexMatcherFromGlobalRateLimitMatcher.loop matchersLength (index + 1) rest regex

/-- Go `NewStatsdRegexMatcherFromGlobalRateLimitMatcher`. -/
def NewStatsdRegexMatcherFromGlobalRateLimitMatcher
    (matchers : List (Option v1alpha1.GlobalRateLimit_Action)) (_detailedMetric : Bool) :
    Except Panic String :=
  let regex := ""
  let matchersLength := matchers.length
  NewStatsdRegexMatcherFromGlobalRateLimitMatcher.loop matchersLength 0 matchers regex

/-- Go `NewDefaultMetricMapping`. -/
def NewDefaultMetricMapping : List types.MetricMapping :=
  [ { Name := "ratelimit_service_should_rate_limit_error"
      Match := "ratelimit.service.call.should_rate_limit.*"
      MatchMetricType := types.MetricTypeCounter
      Labels := (∅ : prometheus.Labels).insert "err_type" "$1" },
    { Name := "ratelimit_service_total_requests"
      Match := "ratelimit_server.*.total_requests"
      MatchMetricType := types.MetricTypeCounter
      Labels := (∅ : prometheus.Labels).insert "grpc_method" "$1" },
    { Name := "ratelimit_service_response_time_seconds"
      Match := "ratelimit_server.*.response_time"
      TimerType := types.ObserverTypeHistogram
      Labels := (∅ : prometheus.Labels).insert "grpc_method" "$1" },
    { Name := "ratelimit_service_config_load_success"
      Match := "ratelimit.service.config_load_success" },
    { Name := "ratelimit_service_config_load_error"
      Match := "ratelimit.service.config_load_error" },
    { Name := "ratelimit_service_global_shadow_mode"
      Match := "ratelimit.service.global_shadow_mode" } ]

/-- The `for index, part := range parts[4:]` loop of `MatchString`: `partsLen`
is `len(parts)`, `index` the loop index, the list holds the elements still to
visit; `keyValue` and `labels` are the variables the loop updates. -/
def MatchString.loop (partsLen : Nat) :
    Nat → List String → String → prometheus.Labels → String × prometheus.Labels
  | _, [], keyValue, labels => (keyValue, labels)
  | index, part :: rest, keyValue, labels =>
    let part := strings.Replace part '-' '_'
    let regexMatchGroup := index + 1
    let isLast : Bool := ((index : Int) == (partsLen : Int) - 5)
    if isLast then
      let keyValue := keyValue ++ ("\\\\." ++ part)
      MatchString.loop partsLen (index + 1) rest keyValue labels
    else
      let keyValue := keyValue ++ ("\\\\." ++ part ++ "_?(.*)")
      let labels := labels.insert (strings.Replace part '-' '_') ("$" ++ toString regexMatchGroup)
      let labels := labels.insert ("key" ++ toString regexMatchGroup) ("$" ++ toString regexMatchGroup)
      MatchString.loop partsLen (index + 1) rest keyValue labels

/-- Go `MatchString`. The slice expression `parts[:4]` panics when `parts` has
fewer than four elements. -/
def MatchString (matchString : String) (detailed_metric : Bool) :
    Except Panic (String × prometheus.Labels) :=
  let labels : prometheus.Labels := ∅
  if detailed_metric then
    let parts := strings.Split matchString '.'
    if parts.length < 4 then
      .error .sliceBoundsOutOfRange
    else
      let firstFour := parts.take 4
      let pre := strings.Join firstFour "\\\\."
      let keyValue := ""
      let (keyValue, labels) := MatchString.loop parts.length 0 (parts.drop 4) keyValue labels
      .ok ("\"" ++ pre ++ keyValue ++ "\"", labels)
  else
    .ok (matchString, labels)

/-- Go `mergeMaps`. -/
def mergeMaps (map1 map2 : prometheus.Labels) : prometheus.Labels :=
  let merged : prometheus.Labels := ∅
  let merged := map1.foldl (fun merged key value => merged.insert key value) merged
  let merged := map2.foldl (fun merged key value => merged.insert key value) merged
  merged

/-- Go `NewMetricMappingFromGlobalRateLimit`: the six blocks of the source, in
source order. `*globalRateLimit.Spec.Identifier` and
`*globalRateLimit.Spec.Selector.Route` panic on a nil pointer, and so does the encoder
called first on a nil element of `Matcher`. -/
def NewMetricMappingFromGlobalRateLimit (rateLimitServiceName : String)
    (globalRateLimitDomain : String) (globalRateLimit : v1alpha1.GlobalRateLimit) :
    Except Panic (List types.MetricMapping × error) := do
  let metricMappings : List types.MetricMapping := []
  let regexMatcher ← NewStatsdRegexMatcherFromGlobalRateLimitMatcher
    globalRateLimit.Spec.Matcher globalRateLimit.Spec.DetailedMetric
  let matchType : String := if globalRateLimit.Spec.DetailedMetric then "regex" else ""
  -- Near Limit
  let (nearLimitMetricValue, nearLimitDynamicMetricLabels) ← MatchString
    ("ratelimit.service.rate_limit." ++ globalRateLimitDomain ++ "." ++ regexMatcher ++ ".near_limit")
    globalRateLimit.Spec.DetailedMetric
  let nearLimitStaticMetricLabels : prometheus.Labels :=
    ((((∅ : prometheus.Labels).insert "identifier" (← deref globalRateLimit.Spec.Identifier)).insert
      "rate_limit_service_name" rateLimitServiceName).insert
      "global_rate_limit_name" globalRateLimit.Name).insert
      "route" (← deref globalRateLimit.Spec.Selector.Route)
  let nearLimitLabels := mergeMaps nearLimitStaticMetricLabels nearLimitDynamicMetricLabels
  let nearLimitMetricMapping : types.MetricMapping :=
    { Name := "ratelimit_service_rate_limit_near_limit"
      Match := nearLimitMetricValue
      MatchType := matchType
      TimerType := types.ObserverTypeHistogram
      Labels := nearLimitLabels }
  -- Over Limit
  let (overLimitMetricValue, overLimitDynamicMetricLabels) ← MatchString
    ("ratelimit.service.rate_limit." ++ globalRateLimitDomain ++ "." ++ regexMatcher ++ ".over_limit")
    globalRateLimit.Spec.DetailedMetric
  let overLimitStaticMetricLabels : prometheus.Labels :=
    ((((∅ : prometheus.Labels).insert "identifier" (← deref globalRateLimit.Spec.Identifier)).insert
      "rate_limit_service_name" rateLimitServiceName).insert
      "global_rate_limit_name" globalRateLimit.Name).insert
      "route" (← deref globalRateLimit.Spec.Selector.Route)
  let overLimitLabels := mergeMaps overLimitStaticMetricLabels overLimitDynamicMetricLabels
  let overLimitMetricMapping : types.MetricMapping :=
    { Name := "ratelimit_service_rate_limit_over_limit"
      Match := overLimitMetricValue
      MatchType := matchType
      TimerType := types.ObserverTypeHistogram
      Labels := overLimitLabels }
  -- Over Limit with local cache
  let (overLimitWithCacheMetricValue, overLimitWithCacheDynamicMetricLabels) ← MatchString
    ("ratelimit.service.rate_limit." ++ globalRateLimitDomain ++ "." ++ regexMatcher ++ ".over_limit_with_local_cache")
    globalRateLimit.Spec.DetailedMetric
  let overLimitWithCacheStaticMetricLabels : prometheus.Labels :=
    ((((∅ : prometheus.Labels).insert "identifier" (← deref globalRateLimit.Spec.Identifier)).insert
      "rate_limit_service_name" rateLimitServiceName).insert
      "global_rate_limit_name" globalRateLimit.Name).insert
      "route" (← deref globalRateLimit.Spec.Selector.Route)
  let overLimitWithCacheLabels := mergeMaps overLimitWithCacheStaticMetricLabels overLimitWithCacheDynamicMetricLabels
  let overLimitWithLocalCacheMetricMapping : types.MetricMapping :=
    { Name := "ratelimit_service_rate_limit_over_limit_with_local_cache"
      Match := overLimitWithCacheMetricValue
      MatchType := matchType
      TimerType := types.ObserverTypeHistogram
      Labels := overLimitWithCacheLabels }
  -- Total Hits
  let (totalHitsMetricValue, totalHitsDynamicMetricLabels) ← MatchString
    ("ratelimit.service.rate_limit." ++ globalRateLimitDomain ++ "." ++ regexMatcher ++ ".total_hits")
    globalRateLimit.Spec.DetailedMetric
  let totalHitsStaticMetricLabels : prometheus.Labels :=
    ((((∅ : prometheus.Labels).insert "identifier" (← deref globalRateLimit.Spec.Identifier)).insert
      "rate_limit_service_name" rateLimitServiceName).insert
      "global_rate_limit_name" globalRateLimit.Name).insert
      "route" (← deref globalRateLimit.Spec.Selector.Route)
  let totalHitsLabels := mergeMaps totalHitsStaticMetricLabels totalHitsDynamicMetricLabels
  let totalHitsMetricMapping : types.MetricMapping :=
    { Name := "ratelimit_service_rate_limit_total_hits"
      Match := totalHitsMetricValue
      MatchType := matchType
      TimerType := types.ObserverTypeHistogram
      Labels := totalHitsLabels }
  -- Within Limit
  let (withinLimitMetricValue, withinLimitDynamicMetricLabels) ← MatchString
    ("ratelimit.service.rate_limit." ++ globalRateLimitDomain ++ "." ++ regexMatcher ++ ".within_limit")
    globalRateLimit.Spec.DetailedMetric
  let withinLimitStaticMetricLabels : prometheus.Labels :=
    ((((∅ : prometheus.Labels).insert "identifier" (← deref globalRateLimit.Spec.Identifier)).insert
      "rate_limit_service_name" rateLimitServiceName).insert
      "global_rate_limit_name" globalRateLimit.Name).insert
      "route" (← deref globalRateLimit.Spec.Selector.Route)
  let withinLimitLabels := mergeMaps withinLimitStaticMetricLabels withinLimitDynamicMetricLabels
  let withinLimitMetricMapping : types.MetricMapping :=
    { Name := "ratelimit_service_rate_limit_within_limit"
      Match := withinLimitMetricValue
      MatchType := matchType
      TimerType := types.ObserverTypeHistogram
      Labels := withinLimitLabels }
  -- Shadow Mode
  let (shadowModeMetricValue, shadowModeDynamicMetricLabels) ← MatchString
    ("ratelimit.service.rate_limit." ++ globalRateLimitDomain ++ "." ++ regexMatcher ++ ".shadow_mode")
    globalRateLimit.Spec.DetailedMetric
  let shadowModeStaticMetricLabels : prometheus.Labels :=
    ((((∅ : prometheus.Labels).insert "identifier" (← deref globalRateLimit.Spec.Identifier)).insert
      "rate_limit_service_name" rateLimitServiceName).insert
      "global_rate_limit_name" globalRateLimit.Name).insert
      "route" (← deref globalRateLimit.Spec.Selector.Route)
  let shadowModeLabels := mergeMaps shadowModeStaticMetricLabels shadowModeDynamicMetricLabels
  let shadowModeMetricMapping : types.MetricMapping :=
    { Name := "ratelimit_service_rate_limit_shadow_mode"
      Match := shadowModeMetricValue
      MatchType := matchType
      TimerType := types.ObserverTypeHistogram
      Labels := shadowModeLabels }
  let metricMappings := metricMappings ++ [nearLimitMetricMapping, overLimitMetricMapping,
    overLimitWithLocalCacheMetricMapping, totalHitsMetricMapping, withinLimitMetricMapping,
    shadowModeMetricMapping]
  return (metricMappings, none)

/-- The `for _, globalRateLimit := range globalRateLimitList` loop of
`NewStatsdConfig` followed by the statements after it: the list holds the
elements still to visit, `metricMapper` is the variable the loop updates. -/
def NewStatsdConfig.loop (rateLimitServiceName : String) (globalRateLimitDomain : String) :
    List v1alpha1.GlobalRateLimit → types.MetricMapper → Except Panic (types.MetricMapper × error)
  | [], metricMapper =>
    let metricMapper : types.MetricMapper :=
      { Mappings := metricMapper.Mappings ++ NewDefaultMetricMapping }
    .ok (metricMapper, none)
  | globalRateLimit :: rest, metricMapper =>
    if globalRateLimit.Spec.Identifier != none then do
      let (metricMappings, err) ← NewMetricMappingFromGlobalRateLimit rateLimitServiceName
        globalRateLimitDomain globalRateLimit
      if err != none then
        return (metricMapper, err)
      let metricMapper : types.MetricMapper :=
        { Mappings := metricMapper.Mappings ++ metricMappings }
      NewStatsdConfig.loop rateLimitServiceName globalRateLimitDomain rest metricMapper
    else
      NewStatsdConfig.loop rateLimitServiceName globalRateLimitDomain rest metricMapper

/-- Go `NewStatsdConfig`. -/
def NewStatsdConfig (rateLimitServiceName : String) (globalRateLimitDomain : String)
    (globalRateLimitList : List v1alpha1.GlobalRateLimit) :
    Except Panic (types.MetricMapper × error) :=
  let metricMapper : types.MetricMapper := {}
  NewStatsdConfig.loop rateLimitServiceName globalRateLimitDomain globalRateLimitList metricMapper

/-! ## Definitions used to state the properties -/

/-- Value of a string of decimal digits. -/
def digitsValue (l : List Char) : Nat := l.foldl (fun acc c => acc * 10 + (c.toNat - 48)) 0

/-- The escaped-dot separator of a compiled pattern: two backslashes and a dot. -/
def SEP : String := "\\\\."

/-- Normalisation of a segment: every `-` becomes `_`. -/
def normalize (p : String) : String := strings.Replace p '-' '_'

/-- The label writes of the capture loop, in order, for the captured segments
`mid` when `index` segments were visited before. -/
def capturePairs : Nat → List String → List (Sigma fun _ : String => String)
  | _, [] => []
  | index, p :: rest =>
    ⟨normalize p, "$" ++ toString (index + 1)⟩ ::
      ⟨"key" ++ toString (index + 1), "$" ++ toString (index + 1)⟩ :: capturePairs (index + 1) rest

/-- Write a list of entries into a map, in order. -/
def insertAll (kvs : List (Sigma fun _ : String => String)) (labels : prometheus.Labels) :
    prometheus.Labels :=
  kvs.foldl (fun r a => r.insert a.1 a.2) labels

deriving instance DecidableEq for Except

/-- The number of populated variants of an action. -/
def populated (a : v1alpha1.GlobalRateLimit_Action) : Nat :=
  (if a.RequestHeaders.isSome then 1 else 0) + (if a.RemoteAddress.isSome then 1 else 0)
    + (if a.GenericKey.isSome then 1 else 0) + (if a.HeaderValueMatch.isSome then 1 else 0)

/-- The token of one action in the specification's words (its section 4.1 and the
malformed-action case of section 7): the descriptor key for RequestHeaders,
`remote_address` for RemoteAddress, `<key>_<value>` or `generic_key_<value>` for
GenericKey, `header_match_<value>` for HeaderValueMatch, the empty token for an action
with no variant populated. It is compared with the encoder's loop, not used by it. -/
def specToken (a : v1alpha1.GlobalRateLimit_Action) : String :=
  match a.RequestHeaders, a.RemoteAddress, a.GenericKey, a.HeaderValueMatch with
  | some requestHeaders, _, _, _ => requestHeaders.DescriptorKey
  | none, some _, _, _ => "remote_address"
  | none, none, some genericKey, _ =>
    match genericKey.DescriptorKey with
    | some key => key ++ "_" ++ genericKey.DescriptorValue
    | none => "generic_key_" ++ genericKey.DescriptorValue
  | none, none, none, some headerValueMatch => "header_match_" ++ headerValueMatch.DescriptorValue
  | none, none, none, none => ""

/-- What one iteration of the encoder loop appends for an action before the
separator: the texts of all populated variants, in the order of the four `if`s. -/
def appendedText (a : v1alpha1.GlobalRateLimit_Action) : String :=
  (match a.RequestHeaders with
    | some requestHeaders => requestHeaders.DescriptorKey
    | none => "")
  ++ (match a.RemoteAddress with
    | some _ => "remote_address"
    | none => "")
  ++ (match a.GenericKey with
    | some genericKey =>
      match genericKey.DescriptorKey with
      | some descriptorKey => descriptorKey ++ "_" ++ genericKey.DescriptorValue
      | none => "generic_key" ++ "_" ++ genericKey.DescriptorValue
    | none => "")
  ++ (match a.HeaderValueMatch with
    | some headerValueMatch => "header_match" ++ "_" ++ headerValueMatch.DescriptorValue
    | none => "")

/-- The canonical dot-path of a descriptor token and an event kind. -/
def canonicalPath (domain token event : String) : String :=
  "ratelimit.service.rate_limit." ++ domain ++ "." ++ token ++ "." ++ event

/-- The six event kinds, in the order of the source's blocks. -/
def eventKinds : List String :=
  ["near_limit", "over_limit", "over_limit_with_local_cache", "total_hits", "within_limit",
    "shadow_mode"]

/-- The static label set of a descriptor, written in the order of the source's literal. -/
def staticLabels (serviceName name identifier route : String) : prometheus.Labels :=
  ((((∅ : prometheus.Labels).insert "identifier" identifier).insert
    "rate_limit_service_name" serviceName).insert "global_rate_limit_name" name).insert "route" route

/-- The pair `MatchString` returns, with a placeholder where it panics. -/
def compiledMatch (matchString : String) (detailed : Bool) : String × prometheus.Labels :=
  match MatchString matchString detailed with
  | .ok r => r
  | .error _ => ("", ∅)

/-- The string the encoder returns, with a placeholder where it panics. -/
def encodedToken (matchers : List (Option v1alpha1.GlobalRateLimit_Action)) (detailed : Bool) :
    String :=
  match NewStatsdRegexMatcherFromGlobalRateLimitMatcher matchers detailed with
  | .ok token => token
  | .error _ => ""

/-- The rule of one event kind, built uniformly. -/
def eventRule (serviceName domain : String) (g : v1alpha1.GlobalRateLimit) (identifier route : String)
    (event : String) : types.MetricMapping :=
  { Name := "ratelimit_service_rate_limit_" ++ event
    Match := (compiledMatch (canonicalPath domain
      (encodedToken g.Spec.Matcher g.Spec.DetailedMetric) event)
      g.Spec.DetailedMetric).1
    MatchType := if g.Spec.DetailedMetric then "regex" else ""
    TimerType := types.ObserverTypeHistogram
    Labels := mergeMaps (staticLabels serviceName g.Name identifier route)
      (compiledMatch (canonicalPath domain
        (encodedToken g.Spec.Matcher g.Spec.DetailedMetric) event)
        g.Spec.DetailedMetric).2 }

/-- The rules `NewMetricMappingFromGlobalRateLimit` returns for a descriptor
(no rule where it panics). -/
def rulesOf (serviceName domain : String) (g : v1alpha1.GlobalRateLimit) : List types.MetricMapping :=
  match NewMetricMappingFromGlobalRateLimit serviceName domain g with
  | .ok (rules, _) => rules
  | .error _ => []

/-- The rule names of a descriptor, in event order. -/
def eventRuleNames : List String :=
  ["ratelimit_service_rate_limit_near_limit", "ratelimit_service_rate_limit_over_limit",
    "ratelimit_service_rate_limit_over_limit_with_local_cache",
    "ratelimit_service_rate_limit_total_hits", "ratelimit_service_rate_limit_within_limit",
    "ratelimit_service_rate_limit_shadow_mode"]

/-- A descriptor with a single generic-key action without explicit key. -/
def genericKeyDescriptor (name identifier route value : String) (detailed : Bool) :
    v1alpha1.GlobalRateLimit :=
  { Name := name
    Spec :=
      { Selector := { Route := some route }
        Matcher := [some { GenericKey := some { DescriptorValue := value } }]
        Identifier := some identifier
        DetailedMetric := detailed } }

/-- The names of the default rules, in catalog order. -/
def defaultRuleNames : List String :=
  ["ratelimit_service_should_rate_limit_error", "ratelimit_service_total_requests",
    "ratelimit_service_response_time_seconds", "ratelimit_service_config_load_success",
    "ratelimit_service_config_load_error", "ratelimit_service_global_shadow_mode"]

/-- The segments `MatchString` captures: with detailed metrics all segments after the
fourth except the last, without detailed metrics none. -/
def capturedSegments (s : String) (detailed : Bool) : List String :=
  if detailed then ((strings.Split s '.').drop 4).dropLast else []

/-- A descriptor with detailed metrics whose single action is a request header with
descriptor key `route`: its captured segment has the name of a static label. -/
def routeHeaderDescriptor (name identifier route : String) : v1alpha1.GlobalRateLimit :=
  { Name := name
    Spec :=
      { Selector := { Route := some route }
        Matcher := [some { RequestHeaders := some { DescriptorKey := "route" } }]
        Identifier := some identifier
        DetailedMetric := true } }

/-- The pointers of a descriptor the compiler dereferences besides the identifier are
set: the route is not nil and no element of `Matcher` is nil. -/
def pointersSet (g : v1alpha1.GlobalRateLimit) : Prop :=
  g.Spec.Selector.Route ≠ none ∧ ∀ m ∈ g.Spec.Matcher, m ≠ none

instance (g : v1alpha1.GlobalRateLimit) : Decidable (pointersSet g) := by
  unfold pointersSet
  infer_instance

/-- A descriptor with identifier and route whose `Matcher` holds a generic-key action
followed by a nil pointer. -/
def nilActionDescriptor (name identifier route value : String) (detailed : Bool) :
    v1alpha1.GlobalRateLimit :=
  { Name := name
    Spec :=
      { Selector := { Route := some route }
        Matcher := [some { GenericKey := some { DescriptorValue := value } }, none]
        Identifier := some identifier
        DetailedMetric := detailed } }

/-! ## Lemmas -/

/-! ### Lookup in a map built by successive writes, and `mergeMaps` -/

theorem foldl_insert_lookup (l : List (Sigma fun _ : String => String)) (hl : l.NodupKeys)
    (acc : prometheus.Labels) (k : String) :
    (l.foldl (fun r a => r.insert a.1 a.2) acc).lookup k
      = (l.dlookup k).orElse (fun _ => acc.lookup k) := by
  induction l generalizing acc with
  | nil => simp
  | cons e t ih =>
    obtain ⟨a, b⟩ := e
    rw [List.nodupKeys_cons] at hl
    rw [List.foldl_cons, ih hl.2]
    by_cases hk : k = a
    · subst hk
      have : t.dlookup k = none := by
        rw [List.dlookup_eq_none]; exact hl.1
      simp [this, AList.lookup_insert]
    · have hk2 : a ≠ k := fun h => hk h.symm
      rw [List.dlookup_cons_ne t ⟨a, b⟩ hk, AList.lookup_insert_ne hk]

theorem mergeMaps_lookup_orElse (A B : prometheus.Labels) (k : String) :
    (mergeMaps A B).lookup k = (B.lookup k).orElse (fun _ => A.lookup k) := by
  unfold mergeMaps
  simp only [AList.foldl]
  rw [foldl_insert_lookup _ B.nodupKeys, foldl_insert_lookup _ A.nodupKeys]
  simp [AList.lookup]

theorem perm_of_lookup_eq {A B : prometheus.Labels} (h : ∀ k, A.lookup k = B.lookup k) :
    A.entries.Perm B.entries :=
  List.lookup_ext A.nodupKeys B.nodupKeys (fun x y => by
    have := h x
    simp only [AList.lookup] at this
    rw [this])

/-! ### The decimal rendering of a natural number is injective -/

theorem digitChar_toNat (k : Nat) (hk : k < 10) : (Nat.digitChar k).toNat - 48 = k := by
  interval_cases k <;> rfl

theorem foldl_toDigitsCore (fuel : Nat) : ∀ (n : Nat) (ds : List Char), n < fuel →
    (Nat.toDigitsCore 10 fuel n ds).foldl (fun acc c => acc * 10 + (c.toNat - 48)) 0
      = ds.foldl (fun acc c => acc * 10 + (c.toNat - 48)) n := by
  induction fuel with
  | zero => intro n ds h; omega
  | succ fuel ih =>
    intro n ds h
    simp only [Nat.toDigitsCore]
    by_cases h0 : n / 10 = 0
    · simp only [h0, if_true, List.foldl_cons, Nat.zero_mul, Nat.zero_add]
      rw [digitChar_toNat _ (Nat.mod_lt _ (by decide))]
      have : n % 10 = n := by omega
      rw [this]
    · simp only [h0, if_false]
      rw [ih (n / 10) _ (by omega)]
      simp only [List.foldl_cons]
      rw [digitChar_toNat _ (Nat.mod_lt _ (by decide))]
      have : n / 10 * 10 + n % 10 = n := by omega
      rw [this]

theorem digitsValue_repr (n : Nat) : digitsValue (toString n).data = n := by
  show digitsValue (Nat.toDigits 10 n) = n
  unfold digitsValue Nat.toDigits
  rw [foldl_toDigitsCore _ _ _ (Nat.lt_succ_self n)]
  rfl

theorem toString_nat_injective {i j : Nat} (h : toString i = toString j) : i = j := by
  have := congrArg (fun s => digitsValue s.data) h
  simpa [digitsValue_repr] using this

theorem key_injective {i j : Nat} (h : "key" ++ toString i = "key" ++ toString j) : i = j := by
  apply toString_nat_injective
  have := congrArg String.data h
  simp only [String.data_append] at this
  exact String.ext (List.append_cancel_left this)

/-! ### The capture loop of `MatchString` in closed form -/

theorem normalize_idem (p : String) : normalize (normalize p) = normalize p := by
  unfold normalize strings.Replace
  simp only [List.map_map]
  congr 1
  apply List.map_congr_left
  intro c _
  simp only [Function.comp]
  by_cases h : c = '-'
  · simp [h]
  · simp [h]

theorem join_foldl (l : List String) (acc : String) :
    l.foldl (fun r s => r ++ s) acc = acc ++ String.join l := by
  induction l generalizing acc with
  | nil => simp [String.join]
  | cons a t ih =>
    simp only [List.foldl_cons, String.join]
    rw [ih, ih ("" ++ a)]
    simp [String.append_assoc]

theorem join_cons (a : String) (l : List String) : String.join (a :: l) = a ++ String.join l := by
  show List.foldl (fun r s => r ++ s) ("" ++ a) l = a ++ String.join l
  rw [join_foldl]
  simp

theorem MatchString_loop_eq (last : String) : ∀ (mid : List String) (index partsLen : Nat)
    (keyValue : String) (labels : prometheus.Labels), partsLen = index + mid.length + 5 →
    MatchString.loop partsLen index (mid ++ [last]) keyValue labels
      = (keyValue ++ String.join (mid.map fun p => SEP ++ normalize p ++ "_?(.*)") ++ (SEP ++ normalize last),
         insertAll (capturePairs index mid) labels) := by
  intro mid
  induction mid with
  | nil =>
    intro index partsLen keyValue labels h
    subst h
    have h1 : (((index : Nat) : Int) == ((index + 0 + 5 : Nat) : Int) - 5) = true := by
      simp
    simp only [List.nil_append, MatchString.loop, List.length_nil, h1, if_true, List.map_nil,
      capturePairs, insertAll, List.foldl_nil]
    simp [String.join, SEP, normalize]
  | cons p rest ih =>
    intro index partsLen keyValue labels h
    subst h
    have h1 : (((index : Nat) : Int) == ((index + (p :: rest).length + 5 : Nat) : Int) - 5) = false := by
      simp only [List.length_cons, beq_eq_false_iff_ne, ne_eq]
      push_cast
      omega
    simp only [List.cons_append, MatchString.loop, h1, Bool.false_eq_true, if_false, List.append_eq]
    rw [ih (index + 1) _ _ _ (by simp only [List.length_cons]; omega)]
    simp only [List.map_cons, join_cons, capturePairs, insertAll, List.foldl_cons]
    have hn := normalize_idem p
    unfold normalize at hn
    simp only [SEP, normalize, hn, String.append_assoc]

/-! ### The label writes of the capture loop -/

theorem insertAll_lookup (kvs : List (Sigma fun _ : String => String)) (h : kvs.NodupKeys)
    (k : String) : (insertAll kvs ∅).lookup k = kvs.dlookup k := by
  unfold insertAll
  rw [foldl_insert_lookup kvs h]
  cases kvs.dlookup k <;> simp

theorem insertAll_perm (kvs : List (Sigma fun _ : String => String)) (h : kvs.NodupKeys) :
    (insertAll kvs ∅).entries.Perm kvs :=
  List.lookup_ext (insertAll kvs ∅).nodupKeys h (fun x y => by
    have := insertAll_lookup kvs h x
    simp only [AList.lookup] at this
    rw [this])

theorem capturePairs_length : ∀ (mid : List String) (index : Nat),
    (capturePairs index mid).length = 2 * mid.length := by
  intro mid
  induction mid with
  | nil => intro index; simp [capturePairs]
  | cons p rest ih =>
    intro index
    simp only [capturePairs, List.length_cons, ih]
    omega

theorem mem_keys_capturePairs : ∀ (mid : List String) (index : Nat) (k : String),
    k ∈ (capturePairs index mid).keys →
      k ∈ mid.map normalize ∨ ∃ j, index < j ∧ j ≤ index + mid.length ∧ k = "key" ++ toString j := by
  intro mid
  induction mid with
  | nil => intro index k h; simp [capturePairs] at h
  | cons p rest ih =>
    intro index k h
    simp only [capturePairs, List.keys_cons, List.mem_cons] at h
    rcases h with h | h | h
    · left; simp [h]
    · right; exact ⟨index + 1, by omega, by simp, h⟩
    · rcases ih (index + 1) k h with h' | ⟨j, h1, h2, h3⟩
      · left; simp [h']
      · right; exact ⟨j, by omega, by simp only [List.length_cons]; omega, h3⟩

theorem capturePairs_nodupKeys : ∀ (mid : List String) (index : Nat),
    (mid.map normalize).Nodup →
    (∀ p ∈ mid, ∀ j, index < j → j ≤ index + mid.length → normalize p ≠ "key" ++ toString j) →
    (capturePairs index mid).NodupKeys := by
  intro mid
  induction mid with
  | nil => intro index _ _; simp [capturePairs]
  | cons p rest ih =>
    intro index hd hk
    simp only [List.map_cons, List.nodup_cons] at hd
    simp only [capturePairs, List.nodupKeys_cons, List.keys_cons, List.mem_cons, not_or]
    refine ⟨⟨?_, ?_⟩, ?_, ?_⟩
    · exact hk p (List.mem_cons_self _ _) (index + 1) (by omega) (by simp)
    · intro hmem
      rcases mem_keys_capturePairs rest (index + 1) _ hmem with h' | ⟨j, h1, h2, h3⟩
      · exact hd.1 h'
      · exact hk p (List.mem_cons_self _ _) j (by omega) (by simp only [List.length_cons]; omega) h3
    · intro hmem
      rcases mem_keys_capturePairs rest (index + 1) _ hmem with h' | ⟨j, h1, h2, h3⟩
      · obtain ⟨q, hq, hq2⟩ := List.mem_map.mp h'
        exact hk q (List.mem_cons_of_mem _ hq) (index + 1) (by omega) (by simp) hq2
      · have := key_injective h3
        omega
    · apply ih (index + 1) hd.2
      intro q hq j h1 h2
      exact hk q (List.mem_cons_of_mem _ hq) j (by omega) (by simp only [List.length_cons]; omega)

theorem mem_capturePairs : ∀ (mid : List String) (index i : Nat) (hi : i < mid.length),
    (⟨normalize mid[i], "$" ++ toString (index + i + 1)⟩ : Sigma fun _ : String => String)
        ∈ capturePairs index mid ∧
    (⟨"key" ++ toString (index + i + 1), "$" ++ toString (index + i + 1)⟩ :
        Sigma fun _ : String => String) ∈ capturePairs index mid := by
  intro mid
  induction mid with
  | nil => intro index i hi; simp at hi
  | cons p rest ih =>
    intro index i hi
    cases i with
    | zero => simp [capturePairs]
    | succ i =>
      simp only [List.length_cons, Nat.add_lt_add_iff_right] at hi
      have := ih (index + 1) i hi
      have e : index + 1 + i + 1 = index + (i + 1) + 1 := by omega
      rw [e] at this
      simp only [capturePairs, List.getElem_cons_succ, List.mem_cons]
      exact ⟨Or.inr (Or.inr this.1), Or.inr (Or.inr this.2)⟩

theorem MatchString_detailed_eq (s p0 p1 p2 p3 : String) (mid : List String) (last : String)
    (h : strings.Split s '.' = p0 :: p1 :: p2 :: p3 :: (mid ++ [last])) :
    MatchString s true = .ok
      ("\"" ++ p0 ++ SEP ++ p1 ++ SEP ++ p2 ++ SEP ++ p3
          ++ String.join (mid.map fun p => SEP ++ normalize p ++ "_?(.*)")
          ++ SEP ++ normalize last ++ "\"",
        insertAll (capturePairs 0 mid) ∅) := by
  unfold MatchString
  simp only [h, if_true]
  have hlen : ¬ (p0 :: p1 :: p2 :: p3 :: (mid ++ [last])).length < 4 := by
    simp only [List.length_cons]; omega
  simp only [hlen, if_false, List.take_succ_cons, List.take_zero, List.drop_succ_cons, List.drop_zero]
  rw [MatchString_loop_eq last mid 0 _ "" ∅ (by simp)]
  simp only [strings.Join, SEP, String.append_assoc, String.empty_append]

theorem exists_segments (l : List String) (h : 5 ≤ l.length) :
    ∃ p0 p1 p2 p3 mid last, l = p0 :: p1 :: p2 :: p3 :: (mid ++ [last]) ∧ mid.length + 5 = l.length := by
  match l, h with
  | p0 :: p1 :: p2 :: p3 :: x :: rest, _ =>
    have hne : x :: rest ≠ [] := by simp
    refine ⟨p0, p1, p2, p3, (x :: rest).dropLast, (x :: rest).getLast hne, ?_, ?_⟩
    · rw [List.dropLast_append_getLast hne]
    · simp

/-! ### The encoder loop in closed form -/

theorem encoder_loop_cons (matchersLength index : Nat) (a : v1alpha1.GlobalRateLimit_Action)
    (rest : List (Option v1alpha1.GlobalRateLimit_Action)) (regex : String) :
    NewStatsdRegexMatcherFromGlobalRateLimitMatcher.loop matchersLength index (some a :: rest) regex
      = NewStatsdRegexMatcherFromGlobalRateLimitMatcher.loop matchersLength (index + 1) rest
          (if index + 1 != matchersLength then regex ++ appendedText a ++ "." else regex ++ appendedText a) := by
  obtain ⟨rh, ra, gk, hv⟩ := a
  rw [NewStatsdRegexMatcherFromGlobalRateLimitMatcher.loop]
  congr 1
  have e : ∀ {x y : String}, x = y →
      (if index + 1 != matchersLength then x ++ "." else x)
        = (if index + 1 != matchersLength then y ++ "." else y) := by
    intro x y h; rw [h]
  apply e
  cases rh <;> cases ra <;> cases hv <;> cases gk with
  | none => simp only [appendedText, String.append_assoc, String.append_empty, String.empty_append]
  | some g =>
    obtain ⟨v, k⟩ := g
    cases k <;>
      simp only [appendedText, String.append_assoc, String.append_empty, String.empty_append]

theorem appendedText_eq_specToken (a : v1alpha1.GlobalRateLimit_Action) (h : populated a ≤ 1) :
    appendedText a = specToken a := by
  obtain ⟨rh, ra, gk, hv⟩ := a
  cases rh <;> cases ra <;> cases hv <;> cases gk with
  | none =>
    first
    | (simp [populated] at h; done)
    | (simp only [appendedText, specToken, String.append_empty, String.empty_append]; done)
    | (simp only [appendedText, specToken, String.append_empty, String.empty_append]; rfl)
  | some g =>
    obtain ⟨v, k⟩ := g
    cases k <;>
      first
      | (simp [populated] at h; done)
      | (simp only [appendedText, specToken, String.append_empty, String.empty_append]; done)
      | (simp only [appendedText, specToken, String.append_empty, String.empty_append,
          String.append_assoc]; rfl)

theorem encoder_loop_eq : ∀ (rest : List v1alpha1.GlobalRateLimit_Action) (index matchersLength : Nat)
    (regex : String), matchersLength = index + rest.length →
    NewStatsdRegexMatcherFromGlobalRateLimitMatcher.loop matchersLength index (rest.map some) regex
      = .ok (regex ++ strings.Join (rest.map appendedText) ".") := by
  intro rest
  induction rest with
  | nil => intro index n regex _; simp [NewStatsdRegexMatcherFromGlobalRateLimitMatcher.loop, strings.Join]
  | cons a rest ih =>
    intro index n regex hn
    subst hn
    rw [List.map_cons, encoder_loop_cons,
      ih (index + 1) _ _ (by simp only [List.length_cons]; omega)]
    cases rest with
    | nil => simp [strings.Join]
    | cons b rest =>
      have hne : (index + 1 != index + (a :: b :: rest).length) = true := by
        simp only [List.length_cons, bne_iff_ne, ne_eq]; omega
      simp only [hne, if_true, List.map_cons, strings.Join, String.append_assoc]

theorem encoder_loop_panics : ∀ (rest : List (Option v1alpha1.GlobalRateLimit_Action))
    (index matchersLength : Nat) (regex : String), none ∈ rest →
    NewStatsdRegexMatcherFromGlobalRateLimitMatcher.loop matchersLength index rest regex
      = .error .nilDereference := by
  intro rest
  induction rest with
  | nil => intro index n regex h; simp at h
  | cons m rest ih =>
    intro index n regex h
    cases m with
    | none => rw [NewStatsdRegexMatcherFromGlobalRateLimitMatcher.loop]
    | some a =>
      have hrest : none ∈ rest := by
        rcases List.mem_cons.mp h with h1 | h1
        · exact absurd h1 (by simp)
        · exact h1
      rw [encoder_loop_cons, ih _ _ _ hrest]

theorem encoder_panics (matchers : List (Option v1alpha1.GlobalRateLimit_Action))
    (detailed : Bool) (h : none ∈ matchers) :
    NewStatsdRegexMatcherFromGlobalRateLimitMatcher matchers detailed = .error .nilDereference := by
  unfold NewStatsdRegexMatcherFromGlobalRateLimitMatcher
  exact encoder_loop_panics matchers 0 _ "" h

theorem exists_actions : ∀ (matchers : List (Option v1alpha1.GlobalRateLimit_Action)),
    (∀ m ∈ matchers, m ≠ none) → ∃ acts : List v1alpha1.GlobalRateLimit_Action,
      matchers = acts.map some := by
  intro matchers
  induction matchers with
  | nil => intro _; exact ⟨[], rfl⟩
  | cons m rest ih =>
    intro h
    obtain ⟨acts, hacts⟩ := ih (fun x hx => h x (List.mem_cons_of_mem _ hx))
    obtain ⟨a, ha⟩ := Option.ne_none_iff_exists'.mp (h m (List.mem_cons_self _ _))
    exact ⟨a :: acts, by rw [ha, hacts, List.map_cons]⟩

theorem encoder_map_some (acts : List v1alpha1.GlobalRateLimit_Action) (detailed : Bool) :
    NewStatsdRegexMatcherFromGlobalRateLimitMatcher (acts.map some) detailed
      = .ok (strings.Join (acts.map appendedText) ".") := by
  unfold NewStatsdRegexMatcherFromGlobalRateLimitMatcher
  rw [encoder_loop_eq acts 0 _ "" (by simp), String.empty_append]

theorem encoder_ok_of_nonnil (matchers : List (Option v1alpha1.GlobalRateLimit_Action))
    (detailed : Bool) (h : ∀ m ∈ matchers, m ≠ none) :
    NewStatsdRegexMatcherFromGlobalRateLimitMatcher matchers detailed
      = .ok (encodedToken matchers detailed) := by
  obtain ⟨acts, rfl⟩ := exists_actions matchers h
  simp only [encodedToken, encoder_map_some]

theorem encoder_ok_or_panics (matchers : List (Option v1alpha1.GlobalRateLimit_Action))
    (detailed : Bool) :
    NewStatsdRegexMatcherFromGlobalRateLimitMatcher matchers detailed
        = .ok (encodedToken matchers detailed) ∧ (∀ m ∈ matchers, m ≠ none) ∨
      NewStatsdRegexMatcherFromGlobalRateLimitMatcher matchers detailed = .error .nilDereference ∧
        none ∈ matchers := by
  by_cases h : none ∈ matchers
  · exact Or.inr ⟨encoder_panics matchers detailed h, h⟩
  · have hn : ∀ m ∈ matchers, m ≠ none := fun m hm e => h (e ▸ hm)
    exact Or.inl ⟨encoder_ok_of_nonnil matchers detailed hn, hn⟩

theorem encodedToken_eq (matchers : List (Option v1alpha1.GlobalRateLimit_Action))
    (detailed : Bool) (token : String)
    (h : NewStatsdRegexMatcherFromGlobalRateLimitMatcher matchers detailed = .ok token) :
    encodedToken matchers detailed = token := by
  simp only [encodedToken, h]

theorem nonnil_of_encoder_ok (matchers : List (Option v1alpha1.GlobalRateLimit_Action))
    (detailed : Bool) (token : String)
    (h : NewStatsdRegexMatcherFromGlobalRateLimitMatcher matchers detailed = .ok token) :
    ∀ m ∈ matchers, m ≠ none := by
  intro m hm e
  rw [encoder_panics matchers detailed (e ▸ hm)] at h
  exact Except.noConfusion h

/-! ### Splitting the canonical path -/

theorem splitOn_append_sep (sep : Char) (b : List Char) : ∀ a : List Char,
    (a ++ sep :: b).splitOn sep = a.splitOn sep ++ b.splitOn sep := by
  intro a
  induction a with
  | nil => simp [List.splitOn]
  | cons x a ih =>
    simp only [List.splitOn] at ih ⊢
    rw [List.cons_append, List.splitOnP_cons, List.splitOnP_cons, ih]
    by_cases hx : (x == sep) = true
    · simp [hx]
    · simp only [hx, if_false]
      cases h : List.splitOnP (fun c => c == sep) a with
      | nil => exact absurd h (List.splitOnP_ne_nil _ _)
      | cons y ys => simp

theorem Split_append_sep (a b : String) (sep : Char) :
    strings.Split (a ++ String.singleton sep ++ b) sep = strings.Split a sep ++ strings.Split b sep := by
  unfold strings.Split
  rw [String.append_assoc, String.data_append, String.data_append]
  show List.map String.mk ((a.data ++ sep :: b.data).splitOn sep) = _
  rw [splitOn_append_sep, List.map_append]

theorem Split_eq_single (a : String) (sep : Char) (h : sep ∉ a.data) :
    strings.Split a sep = [a] := by
  unfold strings.Split
  rw [List.splitOn, List.splitOnP_eq_single]
  · rfl
  · intro x hx hxs
    rw [beq_iff_eq] at hxs
    exact h (hxs ▸ hx)

theorem Split_ne_nil (a : String) (sep : Char) : strings.Split a sep ≠ [] := by
  unfold strings.Split
  simp [List.splitOn, List.splitOnP_ne_nil]

theorem Split_length_pos (a : String) (sep : Char) : 1 ≤ (strings.Split a sep).length := by
  have := Split_ne_nil a sep
  cases h : strings.Split a sep with
  | nil => exact absurd h this
  | cons x xs => simp

theorem Split_canonicalPath (domain token event : String) :
    strings.Split (canonicalPath domain token event) '.'
      = "ratelimit" :: "service" :: "rate_limit" ::
          (strings.Split domain '.' ++ strings.Split token '.' ++ strings.Split event '.') := by
  have e : canonicalPath domain token event
      = "ratelimit" ++ String.singleton '.' ++ ("service" ++ String.singleton '.' ++ ("rate_limit"
          ++ String.singleton '.' ++ (domain ++ String.singleton '.' ++ (token
          ++ String.singleton '.' ++ event)))) := by
    unfold canonicalPath
    simp only [String.append_assoc]
    rfl
  rw [e, Split_append_sep, Split_append_sep, Split_append_sep, Split_append_sep, Split_append_sep]
  have h1 : strings.Split "ratelimit" '.' = ["ratelimit"] := by decide
  have h2 : strings.Split "service" '.' = ["service"] := by decide
  have h3 : strings.Split "rate_limit" '.' = ["rate_limit"] := by decide
  rw [h1, h2, h3]
  simp

/-! ### The six blocks of `NewMetricMappingFromGlobalRateLimit` as one construction -/

theorem MatchString_ok_of_length (s : String) (detailed : Bool)
    (h : 5 ≤ (strings.Split s '.').length) :
    MatchString s detailed = .ok (compiledMatch s detailed) := by
  cases detailed with
  | false => simp [compiledMatch, MatchString]
  | true =>
    obtain ⟨p0, p1, p2, p3, mid, last, hs, _⟩ := exists_segments _ h
    have := MatchString_detailed_eq s p0 p1 p2 p3 mid last hs
    simp only [compiledMatch, this]

theorem canonicalPath_length (domain token event : String) :
    6 ≤ (strings.Split (canonicalPath domain token event) '.').length := by
  rw [Split_canonicalPath]
  have h1 := Split_length_pos domain '.'
  have h2 := Split_length_pos token '.'
  have h3 := Split_length_pos event '.'
  simp only [List.length_cons, List.length_append]
  omega

theorem MatchString_canonicalPath (domain token event : String) (detailed : Bool) :
    MatchString (canonicalPath domain token event) detailed
      = .ok (compiledMatch (canonicalPath domain token event) detailed) :=
  MatchString_ok_of_length _ _ (by have := canonicalPath_length domain token event; omega)

theorem sourcePath_eq (domain token : String) (dotEvent event : String)
    (h : dotEvent = "." ++ event) :
    "ratelimit.service.rate_limit." ++ domain ++ "." ++ token ++ dotEvent
      = canonicalPath domain token event := by
  subst h
  simp only [canonicalPath, String.append_assoc]

theorem NewMetricMappingFromGlobalRateLimit_eq (serviceName domain : String)
    (g : v1alpha1.GlobalRateLimit) (identifier route : String)
    (hid : g.Spec.Identifier = some identifier) (hr : g.Spec.Selector.Route = some route)
    (hnil : ∀ m ∈ g.Spec.Matcher, m ≠ none) :
    NewMetricMappingFromGlobalRateLimit serviceName domain g
      = .ok (eventKinds.map (eventRule serviceName domain g identifier route), none) := by
  unfold NewMetricMappingFromGlobalRateLimit
  rw [encoder_ok_of_nonnil _ _ hnil]
  simp only [hid, hr, deref, bind, Except.bind]
  rw [sourcePath_eq domain _ ".near_limit" "near_limit" rfl,
    sourcePath_eq domain _ ".over_limit" "over_limit" rfl,
    sourcePath_eq domain _ ".over_limit_with_local_cache" "over_limit_with_local_cache" rfl,
    sourcePath_eq domain _ ".total_hits" "total_hits" rfl,
    sourcePath_eq domain _ ".within_limit" "within_limit" rfl,
    sourcePath_eq domain _ ".shadow_mode" "shadow_mode" rfl]
  simp only [MatchString_canonicalPath, bind, Except.bind, pure, Except.pure]
  rfl

/-! ### Label sets as maps -/

theorem mergeMaps_perm_append (A B : prometheus.Labels) (h : ∀ k, k ∈ B → k ∉ A) :
    (mergeMaps A B).entries.Perm (A.entries ++ B.entries) := by
  have hnd : (A.entries ++ B.entries).NodupKeys := by
    rw [List.nodupKeys_iff_pairwise, List.pairwise_append]
    refine ⟨List.nodupKeys_iff_pairwise.mp A.nodupKeys, List.nodupKeys_iff_pairwise.mp B.nodupKeys, ?_⟩
    intro a ha b hb hab
    have h1 : a.1 ∈ A := AList.mem_keys.mpr (List.mem_keys_of_mem ha)
    have h2 : b.1 ∈ B := AList.mem_keys.mpr (List.mem_keys_of_mem hb)
    exact h _ h2 (hab ▸ h1)
  apply List.lookup_ext (mergeMaps A B).nodupKeys hnd
  intro x y
  have e := mergeMaps_lookup_orElse A B x
  simp only [AList.lookup] at e
  rw [e, List.dlookup_append]
  by_cases hx : x ∈ B
  · have hA : List.dlookup x A.entries = none := AList.lookup_eq_none.mpr (h x hx)
    simp [hA]
  · have hB : List.dlookup x B.entries = none := AList.lookup_eq_none.mpr hx
    simp [hB]

theorem staticLabels_entries (serviceName name identifier route : String) :
    (staticLabels serviceName name identifier route).entries
      = [⟨"route", route⟩, ⟨"global_rate_limit_name", name⟩,
          ⟨"rate_limit_service_name", serviceName⟩, ⟨"identifier", identifier⟩] := by
  rfl

theorem staticLabels_perm (serviceName name identifier route : String) :
    (staticLabels serviceName name identifier route).entries.Perm
      [⟨"identifier", identifier⟩, ⟨"rate_limit_service_name", serviceName⟩,
        ⟨"global_rate_limit_name", name⟩, ⟨"route", route⟩] := by
  rw [staticLabels_entries]
  exact List.reverse_perm
    [⟨"identifier", identifier⟩, ⟨"rate_limit_service_name", serviceName⟩,
      ⟨"global_rate_limit_name", name⟩, (⟨"route", route⟩ : Sigma fun _ : String => String)]

theorem mem_staticLabels (serviceName name identifier route k : String) :
    k ∈ staticLabels serviceName name identifier route
      ↔ k = "route" ∨ k = "global_rate_limit_name" ∨ k = "rate_limit_service_name" ∨ k = "identifier" := by
  rw [AList.mem_keys, AList.keys, staticLabels_entries]
  simp [List.keys]

/-! ### The loop of `NewStatsdConfig` -/

theorem NewMetricMappingFromGlobalRateLimit_rulesOf (serviceName domain : String)
    (g : v1alpha1.GlobalRateLimit) (hid : g.Spec.Identifier ≠ none)
    (hp : pointersSet g) :
    NewMetricMappingFromGlobalRateLimit serviceName domain g
        = .ok (rulesOf serviceName domain g, none) ∧
      (rulesOf serviceName domain g).map (fun rule => rule.Name) = eventRuleNames := by
  obtain ⟨identifier, hid⟩ := Option.ne_none_iff_exists'.mp hid
  obtain ⟨route, hr⟩ := Option.ne_none_iff_exists'.mp hp.1
  have h := NewMetricMappingFromGlobalRateLimit_eq serviceName domain g identifier route hid hr
    hp.2
  refine ⟨?_, ?_⟩
  · simp only [rulesOf, h]
  · simp only [rulesOf, h]
    rfl

theorem NewStatsdConfig_loop_eq (serviceName domain : String) :
    ∀ (l : List v1alpha1.GlobalRateLimit) (metricMapper : types.MetricMapper),
    (∀ g ∈ l, g.Spec.Identifier ≠ none → pointersSet g) →
    NewStatsdConfig.loop serviceName domain l metricMapper
      = .ok ({ Mappings := metricMapper.Mappings
                ++ ((l.filter fun g => g.Spec.Identifier.isSome).flatMap (rulesOf serviceName domain)
                ++ NewDefaultMetricMapping) }, none) := by
  intro l
  induction l with
  | nil => intro mm _; simp [NewStatsdConfig.loop]
  | cons g rest ih =>
    intro mm h
    have hrest : ∀ g ∈ rest, g.Spec.Identifier ≠ none → pointersSet g :=
      fun x hx => h x (List.mem_cons_of_mem _ hx)
    rw [NewStatsdConfig.loop]
    by_cases hid : g.Spec.Identifier = none
    · simp [hid, ih _ hrest]
    · have hr := h g (List.mem_cons_self _ _) hid
      have hsome : g.Spec.Identifier.isSome = true := Option.isSome_iff_ne_none.mpr hid
      have hne : (g.Spec.Identifier != none) = true := by simpa using hid
      have hcall := (NewMetricMappingFromGlobalRateLimit_rulesOf serviceName domain g hid hr).1
      simp only [hne, if_true, hcall, bind, Except.bind]
      simp [ih _ hrest, hsome, List.filter_cons, pure, Except.pure]

theorem flatMap_rulesOf_length (serviceName domain : String) :
    ∀ l : List v1alpha1.GlobalRateLimit,
    (∀ g ∈ l, g.Spec.Identifier ≠ none → pointersSet g) →
    ((l.filter fun g => g.Spec.Identifier.isSome).flatMap (rulesOf serviceName domain)).length
      = 6 * (l.filter fun g => g.Spec.Identifier.isSome).length := by
  intro l
  induction l with
  | nil => intro _; simp
  | cons g rest ih =>
    intro h
    have hrest : ∀ g ∈ rest, g.Spec.Identifier ≠ none → pointersSet g :=
      fun x hx => h x (List.mem_cons_of_mem _ hx)
    by_cases hid : g.Spec.Identifier = none
    · simp [List.filter_cons, hid, ih hrest]
    · have hsome : g.Spec.Identifier.isSome = true := Option.isSome_iff_ne_none.mpr hid
      have hn := (NewMetricMappingFromGlobalRateLimit_rulesOf serviceName domain g hid
        (h g (List.mem_cons_self _ _) hid)).2
      have hlen : (rulesOf serviceName domain g).length = 6 := by
        have := congrArg List.length hn
        simpa [eventRuleNames] using this
      simp only [List.filter_cons, hsome, if_true, List.flatMap_cons, List.length_append,
        List.length_cons, ih hrest, hlen]
      omega

/-! ### Rules of particular descriptors -/

theorem eventRule_plain (serviceName domain : String) (g : v1alpha1.GlobalRateLimit)
    (identifier route event : String) (hdm : g.Spec.DetailedMetric = false) :
    eventRule serviceName domain g identifier route event
      = { Name := "ratelimit_service_rate_limit_" ++ event
          Match := canonicalPath domain (encodedToken g.Spec.Matcher false) event
          MatchType := ""
          TimerType := types.ObserverTypeHistogram
          Labels := mergeMaps (staticLabels serviceName g.Name identifier route) ∅ } := by
  simp [eventRule, hdm, compiledMatch, MatchString]

theorem normalize_eq_self (p : String) (h : '-' ∉ p.data) : normalize p = p := by
  unfold normalize strings.Replace
  have : p.data.map (fun c => if c = '-' then '_' else c) = p.data := by
    conv_rhs => rw [← List.map_id p.data]
    apply List.map_congr_left
    intro c hc
    have : c ≠ '-' := fun e => h (e ▸ hc)
    simp [this]
  rw [this]

theorem genericKey_token (value : String) (detailed : Bool) :
    NewStatsdRegexMatcherFromGlobalRateLimitMatcher
      [some { GenericKey := some { DescriptorValue := value } }] detailed
      = .ok ("generic_key_" ++ value) := by
  simp only [NewStatsdRegexMatcherFromGlobalRateLimitMatcher,
    NewStatsdRegexMatcherFromGlobalRateLimitMatcher.loop, String.append_assoc, String.empty_append]
  rfl

theorem genericKey_encodedToken (value : String) (detailed : Bool) :
    encodedToken [some { GenericKey := some { DescriptorValue := value } }] detailed
      = "generic_key_" ++ value :=
  encodedToken_eq _ _ _ (genericKey_token value detailed)

theorem genericKey_token_data (value : String) :
    ("generic_key_" ++ value).data
      = 'g' :: 'e' :: 'n' :: 'e' :: 'r' :: 'i' :: 'c' :: '_' :: 'k' :: 'e' :: 'y' :: '_' :: value.data := by
  rw [String.data_append]
  rfl

theorem genericKey_token_ne (value k : String)
    (hk : k = "route" ∨ k = "global_rate_limit_name" ∨ k = "rate_limit_service_name"
      ∨ k = "identifier" ∨ k = "key1") : "generic_key_" ++ value ≠ k := by
  intro h
  have hd := congrArg String.data h
  rw [genericKey_token_data] at hd
  rcases hk with rfl | rfl | rfl | rfl | rfl <;> simp at hd

theorem compiledMatch_single (domain token event : String) (hd : '.' ∉ domain.data)
    (ht : '.' ∉ token.data) (he : '.' ∉ event.data) :
    compiledMatch (canonicalPath domain token event) true
      = ("\"" ++ "ratelimit" ++ SEP ++ "service" ++ SEP ++ "rate_limit" ++ SEP ++ domain
            ++ SEP ++ normalize token ++ "_?(.*)" ++ SEP ++ normalize event ++ "\"",
          ((∅ : prometheus.Labels).insert (normalize token) "$1").insert "key1" "$1") := by
  have hs : strings.Split (canonicalPath domain token event) '.'
      = "ratelimit" :: "service" :: "rate_limit" :: domain :: ([token] ++ [event]) := by
    rw [Split_canonicalPath, Split_eq_single _ _ hd, Split_eq_single _ _ ht, Split_eq_single _ _ he]
    rfl
  have := MatchString_detailed_eq _ _ _ _ _ _ _ hs
  simp only [compiledMatch, this, List.map_cons, List.map_nil, join_cons, String.join,
    List.foldl_nil, String.append_empty, capturePairs, insertAll, List.foldl_cons,
    String.append_assoc]
  rfl

/-! ### Panics, names, captured segments and label keys -/

theorem NewMetricMappingFromGlobalRateLimit_nil_action (serviceName domain : String)
    (g : v1alpha1.GlobalRateLimit) (h : none ∈ g.Spec.Matcher) :
    NewMetricMappingFromGlobalRateLimit serviceName domain g = .error .nilDereference := by
  unfold NewMetricMappingFromGlobalRateLimit
  rw [encoder_panics _ _ h]
  rfl

theorem NewMetricMappingFromGlobalRateLimit_nil_route (serviceName domain : String)
    (g : v1alpha1.GlobalRateLimit) (identifier : String)
    (hid : g.Spec.Identifier = some identifier) (hr : g.Spec.Selector.Route = none) :
    NewMetricMappingFromGlobalRateLimit serviceName domain g = .error .nilDereference := by
  rcases encoder_ok_or_panics g.Spec.Matcher g.Spec.DetailedMetric with ⟨hok, _⟩ | ⟨_, hnil⟩
  · unfold NewMetricMappingFromGlobalRateLimit
    rw [hok]
    simp only [hid, hr, deref, bind, Except.bind]
    rw [sourcePath_eq domain _ ".near_limit" "near_limit" rfl]
    simp only [MatchString_canonicalPath, pure, Except.pure]
  · exact NewMetricMappingFromGlobalRateLimit_nil_action serviceName domain g hnil

theorem NewMetricMappingFromGlobalRateLimit_panics (serviceName domain : String)
    (g : v1alpha1.GlobalRateLimit) (hid : g.Spec.Identifier ≠ none) (hp : ¬ pointersSet g) :
    NewMetricMappingFromGlobalRateLimit serviceName domain g = .error .nilDereference := by
  obtain ⟨identifier, hid'⟩ := Option.ne_none_iff_exists'.mp hid
  by_cases hr : g.Spec.Selector.Route = none
  · exact NewMetricMappingFromGlobalRateLimit_nil_route serviceName domain g identifier hid' hr
  · apply NewMetricMappingFromGlobalRateLimit_nil_action
    by_contra hmem
    exact hp ⟨hr, fun m hm e => hmem (e ▸ hm)⟩

theorem NewMetricMappingFromGlobalRateLimit_nil_identifier (serviceName domain : String)
    (g : v1alpha1.GlobalRateLimit) (hid : g.Spec.Identifier = none) :
    NewMetricMappingFromGlobalRateLimit serviceName domain g = .error .nilDereference := by
  rcases encoder_ok_or_panics g.Spec.Matcher g.Spec.DetailedMetric with ⟨hok, _⟩ | ⟨_, hnil⟩
  · unfold NewMetricMappingFromGlobalRateLimit
    rw [hok]
    simp only [hid, deref, bind, Except.bind]
    rw [sourcePath_eq domain _ ".near_limit" "near_limit" rfl]
    simp only [MatchString_canonicalPath, pure, Except.pure]
  · exact NewMetricMappingFromGlobalRateLimit_nil_action serviceName domain g hnil

theorem pointers_of_rules (serviceName domain : String) (g : v1alpha1.GlobalRateLimit)
    (r : List types.MetricMapping × error)
    (h : NewMetricMappingFromGlobalRateLimit serviceName domain g = .ok r) :
    g.Spec.Identifier ≠ none ∧ pointersSet g := by
  have hid : g.Spec.Identifier ≠ none := by
    intro hid
    rw [NewMetricMappingFromGlobalRateLimit_nil_identifier serviceName domain g hid] at h
    exact Except.noConfusion h
  refine ⟨hid, ?_⟩
  by_contra hp
  rw [NewMetricMappingFromGlobalRateLimit_panics serviceName domain g hid hp] at h
  exact Except.noConfusion h

theorem NewStatsdConfig_loop_panics (serviceName domain : String) :
    ∀ (l : List v1alpha1.GlobalRateLimit) (metricMapper : types.MetricMapper),
    (∃ g ∈ l, g.Spec.Identifier ≠ none ∧ ¬ pointersSet g) →
    NewStatsdConfig.loop serviceName domain l metricMapper = .error .nilDereference := by
  intro l
  induction l with
  | nil => intro mm h; obtain ⟨g, hg, _⟩ := h; simp at hg
  | cons g rest ih =>
    intro mm h
    rw [NewStatsdConfig.loop]
    by_cases hid : g.Spec.Identifier = none
    · have hrest : ∃ x ∈ rest, x.Spec.Identifier ≠ none ∧ ¬ pointersSet x := by
        obtain ⟨x, hx, hx1, hx2⟩ := h
        rcases List.mem_cons.mp hx with rfl | hx'
        · exact absurd hid hx1
        · exact ⟨x, hx', hx1, hx2⟩
      simp [hid, ih _ hrest]
    · have hne : (g.Spec.Identifier != none) = true := by simpa using hid
      by_cases hp : pointersSet g
      · have hrest : ∃ x ∈ rest, x.Spec.Identifier ≠ none ∧ ¬ pointersSet x := by
          obtain ⟨x, hx, hx1, hx2⟩ := h
          rcases List.mem_cons.mp hx with rfl | hx'
          · exact absurd hp hx2
          · exact ⟨x, hx', hx1, hx2⟩
        have hcall := (NewMetricMappingFromGlobalRateLimit_rulesOf serviceName domain g hid hp).1
        simp only [hne, if_true, hcall, bind, Except.bind]
        simp [ih _ hrest, pure, Except.pure]
      · simp only [hne, if_true,
          NewMetricMappingFromGlobalRateLimit_panics serviceName domain g hid hp,
          bind, Except.bind]

theorem NewStatsdConfig_panics (serviceName domain : String) (l : List v1alpha1.GlobalRateLimit)
    (h : ∃ g ∈ l, g.Spec.Identifier ≠ none ∧ ¬ pointersSet g) :
    NewStatsdConfig serviceName domain l = .error .nilDereference := by
  unfold NewStatsdConfig
  exact NewStatsdConfig_loop_panics serviceName domain l _ h

theorem pointersSet_of_success (serviceName domain : String) (l : List v1alpha1.GlobalRateLimit)
    (r : types.MetricMapper × error) (h : NewStatsdConfig serviceName domain l = .ok r) :
    ∀ g ∈ l, g.Spec.Identifier ≠ none → pointersSet g := by
  intro g hg hid
  by_contra hp
  rw [NewStatsdConfig_panics serviceName domain l ⟨g, hg, hid, hp⟩] at h
  exact Except.noConfusion h

theorem NewStatsdConfig_eq (serviceName domain : String) (l : List v1alpha1.GlobalRateLimit)
    (h : ∀ g ∈ l, g.Spec.Identifier ≠ none → pointersSet g) :
    NewStatsdConfig serviceName domain l
      = .ok ({ Mappings := (l.filter fun g => g.Spec.Identifier.isSome).flatMap
                (rulesOf serviceName domain) ++ NewDefaultMetricMapping }, none) := by
  unfold NewStatsdConfig
  rw [NewStatsdConfig_loop_eq serviceName domain l _ h]
  simp

theorem flatMap_rulesOf_names (serviceName domain : String) :
    ∀ l : List v1alpha1.GlobalRateLimit,
    (∀ g ∈ l, g.Spec.Identifier ≠ none → pointersSet g) →
    ((l.filter fun g => g.Spec.Identifier.isSome).flatMap (rulesOf serviceName domain)).map
        (fun rule => rule.Name)
      = (List.replicate (l.filter fun g => g.Spec.Identifier.isSome).length eventRuleNames).flatten := by
  intro l
  induction l with
  | nil => intro _; simp
  | cons g rest ih =>
    intro h
    have hrest : ∀ g ∈ rest, g.Spec.Identifier ≠ none → pointersSet g :=
      fun x hx => h x (List.mem_cons_of_mem _ hx)
    by_cases hid : g.Spec.Identifier = none
    · simp [List.filter_cons, hid, ih hrest]
    · have hsome : g.Spec.Identifier.isSome = true := Option.isSome_iff_ne_none.mpr hid
      have hn := (NewMetricMappingFromGlobalRateLimit_rulesOf serviceName domain g hid
        (h g (List.mem_cons_self _ _) hid)).2
      simp only [List.filter_cons, hsome, if_true, List.flatMap_cons, List.map_append, hn,
        ih hrest, List.length_cons, List.replicate_succ, List.flatten_cons]

theorem nodup_replicated_names (n : Nat) :
    ((List.replicate n eventRuleNames).flatten ++ defaultRuleNames).Nodup ↔ n ≤ 1 := by
  constructor
  · intro h
    by_contra hn
    obtain ⟨k, rfl⟩ : ∃ k, n = k + 2 := ⟨n - 2, by omega⟩
    have hsub : (eventRuleNames ++ eventRuleNames).Sublist
        ((List.replicate (k + 2) eventRuleNames).flatten ++ defaultRuleNames) := by
      simp only [List.replicate_succ, List.flatten_cons, List.append_assoc]
      exact (List.sublist_append_left _ _).append_left _
    have hbad : ¬ (eventRuleNames ++ eventRuleNames).Nodup := by decide
    exact hbad (h.sublist hsub)
  · intro h
    interval_cases n <;> decide

theorem insertAll_append (x y : List (Sigma fun _ : String => String)) (acc : prometheus.Labels) :
    insertAll (x ++ y) acc = insertAll y (insertAll x acc) := by
  simp [insertAll, List.foldl_append]

theorem capturePairs_append : ∀ (a b : List String) (index : Nat),
    capturePairs index (a ++ b) = capturePairs index a ++ capturePairs (index + a.length) b := by
  intro a
  induction a with
  | nil => intro b index; simp [capturePairs]
  | cons p rest ih =>
    intro b index
    have e : index + 1 + rest.length = index + (rest.length + 1) := by omega
    simp only [List.cons_append, capturePairs, List.append_eq, ih, List.length_cons, e]

theorem key_data (s : String) : ("key" ++ s).data = 'k' :: 'e' :: 'y' :: s.data := by
  rw [String.data_append]
  rfl

theorem insertAll_capturePairs_lookup_of_not_mem (k : String)
    (hk : ∀ j : Nat, k ≠ "key" ++ toString j) :
    ∀ (mid : List String) (index : Nat) (acc : prometheus.Labels),
    (∀ p ∈ mid, normalize p ≠ k) →
    (insertAll (capturePairs index mid) acc).lookup k = acc.lookup k := by
  intro mid
  induction mid with
  | nil => intro index acc _; simp [capturePairs, insertAll]
  | cons p rest ih =>
    intro index acc h
    have hp : k ≠ normalize p := fun e => h p (List.mem_cons_self _ _) e.symm
    have hrest : ∀ q ∈ rest, normalize q ≠ k := fun q hq => h q (List.mem_cons_of_mem _ hq)
    have := ih (index + 1)
      ((acc.insert (normalize p) ("$" ++ toString (index + 1))).insert
        ("key" ++ toString (index + 1)) ("$" ++ toString (index + 1))) hrest
    simp only [capturePairs, insertAll, List.foldl_cons] at this ⊢
    rw [this, AList.lookup_insert_ne (hk _), AList.lookup_insert_ne hp]

theorem insertAll_capturePairs_lookup_last (k : String)
    (hk : ∀ j : Nat, k ≠ "key" ++ toString j)
    (pre : List String) (p : String) (post : List String) (acc : prometheus.Labels)
    (hp : normalize p = k) (hpost : ∀ q ∈ post, normalize q ≠ k) :
    (insertAll (capturePairs 0 (pre ++ p :: post)) acc).lookup k
      = some ("$" ++ toString (pre.length + 1)) := by
  rw [capturePairs_append, insertAll_append]
  simp only [capturePairs, Nat.zero_add]
  have hsplit : ∀ (a b : Sigma fun _ : String => String) (l : List (Sigma fun _ : String => String))
      (m : prometheus.Labels), insertAll (a :: b :: l) m
        = insertAll l ((m.insert a.1 a.2).insert b.1 b.2) := by
    intro a b l m; rfl
  rw [hsplit, insertAll_capturePairs_lookup_of_not_mem k hk post _ _ hpost,
    AList.lookup_insert_ne (hk _)]
  subst hp
  rw [AList.lookup_insert]

theorem insertAll_entries : ∀ (kvs : List (Sigma fun _ : String => String))
    (acc : prometheus.Labels),
    (insertAll kvs acc).entries.length ≤ acc.entries.length + kvs.length ∧
    ∀ e ∈ (insertAll kvs acc).entries, e ∈ kvs ∨ e ∈ acc.entries := by
  intro kvs
  induction kvs with
  | nil => intro acc; simp [insertAll]
  | cons x rest ih =>
    intro acc
    have h := ih (acc.insert x.1 x.2)
    have hlen : (acc.insert x.1 x.2).entries.length ≤ acc.entries.length + 1 := by
      rw [AList.insert_entries, List.length_cons]
      exact Nat.succ_le_succ (List.kerase_sublist _ _).length_le
    have hmem : ∀ e ∈ (acc.insert x.1 x.2).entries, e = x ∨ e ∈ acc.entries := by
      intro e he
      rw [AList.insert_entries, List.mem_cons] at he
      rcases he with he | he
      · exact Or.inl he
      · exact Or.inr ((List.kerase_sublist _ _).subset he)
    have hunf : insertAll (x :: rest) acc = insertAll rest (acc.insert x.1 x.2) := rfl
    rw [hunf]
    refine ⟨?_, ?_⟩
    · have := h.1
      simp only [List.length_cons]
      omega
    · intro e he
      rcases h.2 e he with h1 | h1
      · exact Or.inl (List.mem_cons_of_mem _ h1)
      · rcases hmem e h1 with h2 | h2
        · exact Or.inl (h2 ▸ List.mem_cons_self _ _)
        · exact Or.inr h2

theorem capturePairs_values : ∀ (mid : List String) (index : Nat),
    ∀ e ∈ capturePairs index mid,
      ∃ N, index < N ∧ N ≤ index + mid.length ∧ e.2 = "$" ++ toString N := by
  intro mid
  induction mid with
  | nil => intro index e he; simp [capturePairs] at he
  | cons p rest ih =>
    intro index e he
    simp only [capturePairs, List.mem_cons] at he
    rcases he with rfl | rfl | he
    · exact ⟨index + 1, by omega, by simp, rfl⟩
    · exact ⟨index + 1, by omega, by simp, rfl⟩
    · obtain ⟨N, h1, h2, h3⟩ := ih (index + 1) e he
      exact ⟨N, by omega, by simp only [List.length_cons]; omega, h3⟩

theorem compiledMatch_labels (s : String) (detailed : Bool)
    (h : 5 ≤ (strings.Split s '.').length) :
    (compiledMatch s detailed).2 = insertAll (capturePairs 0 (capturedSegments s detailed)) ∅ := by
  cases detailed with
  | false => simp [compiledMatch, MatchString, capturedSegments, capturePairs, insertAll]
  | true =>
    obtain ⟨p0, p1, p2, p3, mid, last, hs, _⟩ := exists_segments _ h
    have := MatchString_detailed_eq s p0 p1 p2 p3 mid last hs
    simp only [compiledMatch, this, capturedSegments, hs, if_true, List.drop_succ_cons,
      List.drop_zero, List.dropLast_concat]

theorem staticLabels_lookup (serviceName name identifier route : String) :
    ∀ kv ∈ [("identifier", identifier), ("rate_limit_service_name", serviceName),
        ("global_rate_limit_name", name), ("route", route)],
      (staticLabels serviceName name identifier route).lookup kv.1 = some kv.2 := by
  intro kv hkv
  simp only [List.mem_cons, List.mem_singleton, List.not_mem_nil, or_false] at hkv
  rcases hkv with rfl | rfl | rfl | rfl <;> rfl

theorem static_key_ne_key (serviceName name identifier route : String) (j : Nat) :
    ∀ kv ∈ [("identifier", identifier), ("rate_limit_service_name", serviceName),
        ("global_rate_limit_name", name), ("route", route)],
      kv.1 ≠ "key" ++ toString j := by
  intro kv hkv h
  have hd := congrArg String.data h
  rw [key_data] at hd
  simp only [List.mem_cons, List.mem_singleton, List.not_mem_nil, or_false] at hkv
  rcases hkv with rfl | rfl | rfl | rfl <;> simp at hd

theorem digitChar_ne_dash (k : Nat) (hk : k < 10) : Nat.digitChar k ≠ '-' := by
  interval_cases k <;> decide

theorem toDigitsCore_no_dash (fuel : Nat) : ∀ (n : Nat) (ds : List Char),
    (∀ c ∈ ds, c ≠ '-') → ∀ c ∈ Nat.toDigitsCore 10 fuel n ds, c ≠ '-' := by
  induction fuel with
  | zero => intro n ds h c hc; exact h c (by simpa [Nat.toDigitsCore] using hc)
  | succ fuel ih =>
    intro n ds h c hc
    simp only [Nat.toDigitsCore] at hc
    have hds : ∀ c ∈ Nat.digitChar (n % 10) :: ds, c ≠ '-' := by
      intro c hc
      rcases List.mem_cons.mp hc with rfl | hc
      · exact digitChar_ne_dash _ (Nat.mod_lt _ (by decide))
      · exact h c hc
    split at hc
    · exact hds c hc
    · exact ih _ _ hds c hc

theorem key_no_dash (j : Nat) : '-' ∉ ("key" ++ toString j).data := by
  rw [key_data]
  intro h
  simp only [List.mem_cons] at h
  rcases h with h | h | h | h
  · exact absurd h (by decide)
  · exact absurd h (by decide)
  · exact absurd h (by decide)
  · have : (toString j).data = Nat.toDigits 10 j := rfl
    rw [this] at h
    exact toDigitsCore_no_dash _ _ [] (by simp) _ h rfl

theorem normalize_no_dash (p : String) : '-' ∉ (normalize p).data := by
  unfold normalize strings.Replace
  simp only [List.mem_map, not_exists, not_and]
  intro c _ h
  by_cases hc : c = '-'
  · simp [hc] at h
  · simp [hc] at h

theorem mem_keys_insertAll_capturePairs (mid : List String) (k : String)
    (h : k ∈ (insertAll (capturePairs 0 mid) ∅).keys) :
    k ∈ mid.map normalize ∨ ∃ j : Nat, k = "key" ++ toString j := by
  obtain ⟨v, hv⟩ := List.mem_keys.mp h
  rcases (insertAll_entries (capturePairs 0 mid) ∅).2 _ hv with h1 | h1
  · rcases mem_keys_capturePairs mid 0 k (List.mem_keys_of_mem h1) with h2 | ⟨j, _, _, h2⟩
    · exact Or.inl h2
    · exact Or.inr ⟨j, h2⟩
  · simp at h1

theorem MatchString_four (s : String) (h : (strings.Split s '.').length = 4) :
    ∃ pattern, MatchString s true = .ok (pattern, ∅) := by
  match hs : strings.Split s '.', h with
  | [p0, p1, p2, p3], _ =>
    refine ⟨"\"" ++ strings.Join [p0, p1, p2, p3] "\\\\." ++ "" ++ "\"", ?_⟩
    unfold MatchString
    simp only [hs, if_true]
    simp [MatchString.loop]

theorem MatchString_label_keys (s : String) (detailed : Bool)
    (h : 4 ≤ (strings.Split s '.').length) :
    ∃ pattern labels, MatchString s detailed = .ok (pattern, labels) ∧
      ∀ k ∈ labels.keys, '-' ∉ k.data := by
  by_cases h5 : 5 ≤ (strings.Split s '.').length
  · refine ⟨(compiledMatch s detailed).1, (compiledMatch s detailed).2,
      MatchString_ok_of_length s detailed h5, ?_⟩
    intro k hk
    rw [compiledMatch_labels s detailed h5] at hk
    rcases mem_keys_insertAll_capturePairs _ k hk with h1 | ⟨j, rfl⟩
    · obtain ⟨p, _, rfl⟩ := List.mem_map.mp h1
      exact normalize_no_dash p
    · exact key_no_dash j
  · cases detailed with
    | false => exact ⟨s, ∅, by simp [MatchString], by simp⟩
    | true =>
      obtain ⟨pattern, hp⟩ := MatchString_four s (by omega)
      exact ⟨pattern, ∅, hp, by simp⟩

theorem mem_keys_mergeMaps (A B : prometheus.Labels) (k : String)
    (h : k ∈ (mergeMaps A B).keys) : k ∈ A.keys ∨ k ∈ B.keys := by
  have hs := AList.lookup_isSome.mpr (AList.mem_keys.mpr h)
  rw [mergeMaps_lookup_orElse] at hs
  cases hB : B.lookup k with
  | some v => exact Or.inr (AList.mem_keys.mp (AList.lookup_isSome.mp (by simp [hB])))
  | none =>
    rw [hB] at hs
    exact Or.inl (AList.mem_keys.mp (AList.lookup_isSome.mp (by simpa using hs)))

theorem eventKinds_no_dot : ∀ e ∈ eventKinds, '.' ∉ e.data := by
  intro e he
  simp only [eventKinds, List.mem_cons, List.mem_singleton, List.not_mem_nil, or_false] at he
  rcases he with rfl | rfl | rfl | rfl | rfl | rfl <;> decide

theorem capturedSegments_canonicalPath (domain token event : String) (he : '.' ∉ event.data) :
    capturedSegments (canonicalPath domain token event) true
      = (strings.Split domain '.').tail ++ strings.Split token '.' := by
  simp only [capturedSegments, if_true, Split_canonicalPath, Split_eq_single _ _ he]
  cases hd : strings.Split domain '.' with
  | nil => exact absurd hd (Split_ne_nil _ _)
  | cons d0 dr =>
    simp only [List.drop_succ_cons, List.cons_append, List.drop_zero, List.tail_cons]
    rw [List.dropLast_concat]

theorem compiledMatch_labels_event (domain token event : String) (detailed : Bool)
    (he : '.' ∉ event.data) :
    (compiledMatch (canonicalPath domain token event) detailed).2
      = (compiledMatch (canonicalPath domain token "near_limit") detailed).2 := by
  have h5 : ∀ e, 5 ≤ (strings.Split (canonicalPath domain token e) '.').length := by
    intro e
    have := canonicalPath_length domain token e
    omega
  rw [compiledMatch_labels _ _ (h5 _), compiledMatch_labels _ _ (h5 _)]
  cases detailed with
  | false => rfl
  | true =>
    rw [capturedSegments_canonicalPath _ _ _ he,
      capturedSegments_canonicalPath _ _ _ (by decide)]

theorem MatchString_short (s : String) (h : (strings.Split s '.').length < 4) :
    MatchString s true = .error .sliceBoundsOutOfRange := by
  simp [MatchString, h]

/-! ## The aggregator `NewStatsdConfig` -/

/-- C1, as stated, fails: the descriptor below has an identifier and a route, so the
list meets the claim's condition, but its `Matcher` holds a nil action pointer;
`NewStatsdConfig` panics with a nil-pointer dereference in the encoder and returns
nothing. -/
theorem NewStatsdConfig_nil_action_counterexample :
    (∀ g ∈ [nilActionDescriptor "n" "foo" "bar" "v1" false],
        g.Spec.Identifier ≠ none → g.Spec.Selector.Route ≠ none) ∧
    NewStatsdConfig "svc" "foo" [nilActionDescriptor "n" "foo" "bar" "v1" false]
      = .error .nilDereference :=
  ⟨by decide, rfl⟩

/-- C1, amended: when every descriptor with an identifier also has a route and no nil
action pointer in its `Matcher`, `NewStatsdConfig` returns no error and its mappings are,
in list order, the rules `NewMetricMappingFromGlobalRateLimit` returns for each descriptor
whose identifier is not nil, followed by the default catalog; each such call returns six
rules named after the event kinds in the order near_limit, over_limit,
over_limit_with_local_cache, total_hits, within_limit, shadow_mode. Descriptors without
identifier add nothing. -/
theorem NewStatsdConfig_mappings_eq (serviceName domain : String)
    (l : List v1alpha1.GlobalRateLimit)
    (h : ∀ g ∈ l, g.Spec.Identifier ≠ none → g.Spec.Selector.Route ≠ none)
    (hnil : ∀ g ∈ l, g.Spec.Identifier ≠ none → ∀ m ∈ g.Spec.Matcher, m ≠ none) :
    NewStatsdConfig serviceName domain l
        = .ok ({ Mappings := (l.filter fun g => g.Spec.Identifier.isSome).flatMap
                    (rulesOf serviceName domain) ++ NewDefaultMetricMapping }, none) ∧
      ∀ g ∈ l, g.Spec.Identifier ≠ none →
        NewMetricMappingFromGlobalRateLimit serviceName domain g
            = .ok (rulesOf serviceName domain g, none) ∧
          (rulesOf serviceName domain g).map (fun rule => rule.Name) = eventRuleNames := by
  have hp : ∀ g ∈ l, g.Spec.Identifier ≠ none → pointersSet g :=
    fun g hg hid => ⟨h g hg hid, hnil g hg hid⟩
  refine ⟨NewStatsdConfig_eq serviceName domain l hp, ?_⟩
  intro g hg hid
  exact NewMetricMappingFromGlobalRateLimit_rulesOf serviceName domain g hid (hp g hg hid)

/-- Witness of C1 (amended): a descriptor with identifier, route and one action, followed
by a descriptor with neither identifier nor route. -/
theorem NewStatsdConfig_mappings_eq_witness :
    (∀ g ∈ [genericKeyDescriptor "n" "foo" "bar" "v1" true, { Name := "m", Spec := {} }],
        g.Spec.Identifier ≠ none → g.Spec.Selector.Route ≠ none) ∧
    (∀ g ∈ [genericKeyDescriptor "n" "foo" "bar" "v1" true, { Name := "m", Spec := {} }],
        g.Spec.Identifier ≠ none → ∀ m ∈ g.Spec.Matcher, m ≠ none) ∧
    (NewStatsdConfig "svc" "foo"
        [genericKeyDescriptor "n" "foo" "bar" "v1" true, { Name := "m", Spec := {} }]
        = .ok ({ Mappings :=
            ([genericKeyDescriptor "n" "foo" "bar" "v1" true, { Name := "m", Spec := {} }].filter
              fun g => g.Spec.Identifier.isSome).flatMap (rulesOf "svc" "foo")
              ++ NewDefaultMetricMapping }, none) ∧
      ∀ g ∈ [genericKeyDescriptor "n" "foo" "bar" "v1" true, { Name := "m", Spec := {} }],
        g.Spec.Identifier ≠ none →
          NewMetricMappingFromGlobalRateLimit "svc" "foo" g = .ok (rulesOf "svc" "foo" g, none) ∧
            (rulesOf "svc" "foo" g).map (fun rule => rule.Name) = eventRuleNames) :=
  ⟨by decide, by decide, NewStatsdConfig_mappings_eq "svc" "foo"
    [genericKeyDescriptor "n" "foo" "bar" "v1" true, { Name := "m", Spec := {} }] (by decide) (by decide)⟩

/-- C2: the mappings `NewStatsdConfig` returns are `6 * (number of descriptors with an
identifier) + 6` many and the last six are the default rules, and no error comes with
them: this holds whenever the call returns; and it returns when every descriptor with an
identifier has a route and no nil action pointer in its `Matcher`. -/
theorem NewStatsdConfig_mappings_length (serviceName domain : String)
    (l : List v1alpha1.GlobalRateLimit) :
    (∀ metricMapper err, NewStatsdConfig serviceName domain l = .ok (metricMapper, err) →
      err = none ∧
      metricMapper.Mappings.length = 6 * (l.filter fun g => g.Spec.Identifier.isSome).length + 6 ∧
      metricMapper.Mappings.drop (metricMapper.Mappings.length - 6) = NewDefaultMetricMapping) ∧
    ((∀ g ∈ l, g.Spec.Identifier ≠ none → g.Spec.Selector.Route ≠ none) →
      (∀ g ∈ l, g.Spec.Identifier ≠ none → ∀ m ∈ g.Spec.Matcher, m ≠ none) →
      ∃ metricMapper, NewStatsdConfig serviceName domain l = .ok (metricMapper, none)) := by
  refine ⟨?_, ?_⟩
  · intro metricMapper err h
    have hp := pointersSet_of_success serviceName domain l _ h
    rw [NewStatsdConfig_eq serviceName domain l hp] at h
    have h1 := congrArg Prod.fst (Except.ok.inj h)
    have h2 := congrArg Prod.snd (Except.ok.inj h)
    simp only at h1 h2
    subst h1
    refine ⟨h2.symm, ?_, ?_⟩
    · simp only [List.length_append, flatMap_rulesOf_length serviceName domain l hp]
      rfl
    · have hd : NewDefaultMetricMapping.length = 6 := rfl
      simp only [List.length_append, hd, Nat.add_sub_cancel]
      rw [List.drop_left]
  · intro h hnil
    exact ⟨_, NewStatsdConfig_eq serviceName domain l
      (fun g hg hid => ⟨h g hg hid, hnil g hg hid⟩)⟩

/-- Witness of C2: two descriptors with identifier and route around one with neither. -/
theorem NewStatsdConfig_mappings_length_witness :
    (∀ g ∈ [genericKeyDescriptor "a" "foo" "bar" "v1" false, { Name := "m", Spec := {} },
          genericKeyDescriptor "b" "baz" "qux" "v2" true],
        g.Spec.Identifier ≠ none → g.Spec.Selector.Route ≠ none) ∧
    (∀ g ∈ [genericKeyDescriptor "a" "foo" "bar" "v1" false, { Name := "m", Spec := {} },
          genericKeyDescriptor "b" "baz" "qux" "v2" true],
        g.Spec.Identifier ≠ none → ∀ m ∈ g.Spec.Matcher, m ≠ none) ∧
    (∃ metricMapper, NewStatsdConfig "svc" "foo"
        [genericKeyDescriptor "a" "foo" "bar" "v1" false, { Name := "m", Spec := {} },
          genericKeyDescriptor "b" "baz" "qux" "v2" true] = .ok (metricMapper, none)) ∧
    (NewStatsdConfig "svc" "foo" [genericKeyDescriptor "a" "foo" "bar" "v1" false]
        = .ok ({ Mappings := rulesOf "svc" "foo" (genericKeyDescriptor "a" "foo" "bar" "v1" false)
                  ++ NewDefaultMetricMapping }, none) ∧
      (none : error) = none ∧
      (rulesOf "svc" "foo" (genericKeyDescriptor "a" "foo" "bar" "v1" false)
          ++ NewDefaultMetricMapping).length
        = 6 * ([genericKeyDescriptor "a" "foo" "bar" "v1" false].filter
            fun g => g.Spec.Identifier.isSome).length + 6 ∧
      (rulesOf "svc" "foo" (genericKeyDescriptor "a" "foo" "bar" "v1" false)
          ++ NewDefaultMetricMapping).drop
        ((rulesOf "svc" "foo" (genericKeyDescriptor "a" "foo" "bar" "v1" false)
          ++ NewDefaultMetricMapping).length - 6) = NewDefaultMetricMapping) :=
  ⟨by decide, by decide,
    (NewStatsdConfig_mappings_length "svc" "foo"
      [genericKeyDescriptor "a" "foo" "bar" "v1" false, { Name := "m", Spec := {} },
          genericKeyDescriptor "b" "baz" "qux" "v2" true]).2 (by decide) (by decide),
    rfl,
    (NewStatsdConfig_mappings_length "svc" "foo"
      [genericKeyDescriptor "a" "foo" "bar" "v1" false]).1
      (types.MetricMapper.mk (rulesOf "svc" "foo" (genericKeyDescriptor "a" "foo" "bar" "v1" false)
        ++ NewDefaultMetricMapping)) none rfl⟩

/-! ## The pattern compiler `MatchString` -/

/-- C3: for a string with at least five dot-separated segments `p0 .. p3`, `mid`, `last`,
`MatchString s true` returns as pattern a double quote, `p0 .. p3` verbatim joined by the
separator `SEP`, then for each segment of `mid` in order `SEP`, the normalised segment and
the text `_?(.*)`, then `SEP` and the normalised last segment without capture group, and a
closing double quote. -/
theorem MatchString_detailed_pattern (s : String) (h : 5 ≤ (strings.Split s '.').length) :
    ∃ p0 p1 p2 p3 mid last,
      strings.Split s '.' = p0 :: p1 :: p2 :: p3 :: (mid ++ [last]) ∧
      (MatchString s true).map Prod.fst = .ok
        ("\"" ++ p0 ++ SEP ++ p1 ++ SEP ++ p2 ++ SEP ++ p3
          ++ String.join (mid.map fun p => SEP ++ normalize p ++ "_?(.*)")
          ++ SEP ++ normalize last ++ "\"") := by
  obtain ⟨p0, p1, p2, p3, mid, last, hs, _⟩ := exists_segments _ h
  refine ⟨p0, p1, p2, p3, mid, last, hs, ?_⟩
  rw [MatchString_detailed_eq s p0 p1 p2 p3 mid last hs]
  rfl

/-- Witness of C3: a path of seven segments, one of them with a dash. -/
theorem MatchString_detailed_pattern_witness :
    5 ≤ (strings.Split "ratelimit.service.rate_limit.foo.generic_key_v1.x-y.near_limit" '.').length ∧
    ∃ p0 p1 p2 p3 mid last,
      strings.Split "ratelimit.service.rate_limit.foo.generic_key_v1.x-y.near_limit" '.'
        = p0 :: p1 :: p2 :: p3 :: (mid ++ [last]) ∧
      (MatchString "ratelimit.service.rate_limit.foo.generic_key_v1.x-y.near_limit" true).map Prod.fst
        = .ok ("\"" ++ p0 ++ SEP ++ p1 ++ SEP ++ p2 ++ SEP ++ p3
          ++ String.join (mid.map fun p => SEP ++ normalize p ++ "_?(.*)")
          ++ SEP ++ normalize last ++ "\"") :=
  ⟨by decide, MatchString_detailed_pattern _ (by decide)⟩

/-- C4, as stated, fails: the path below has seven segments, so two captured segments,
and both are `remote_address`; the label set does not have `2 * 2` entries (it has three),
and the label `remote_address` does not hold the `$1` of the first captured segment (it
holds `$2`). -/
theorem MatchString_labels_count_counterexample :
    (strings.Split "ratelimit.service.rate_limit.foo.remote_address.remote_address.near_limit"
        '.').length = 7 ∧
    ∃ pattern labels,
      MatchString "ratelimit.service.rate_limit.foo.remote_address.remote_address.near_limit" true
        = .ok (pattern, labels) ∧
      labels.entries.length ≠ 2 * (7 - 5) ∧
      labels.lookup (normalize "remote_address") ≠ some ("$" ++ toString 1) :=
  ⟨by decide, _, _, rfl, by decide, by decide⟩

/-- C4, amended: for a string with segments `p0 .. p3`, `mid`, `last` whose captured
segments `mid` have pairwise distinct normalised names, none of them equal to `key`
followed by the decimal of a position `1 .. m`, the label set `MatchString s true` returns
has exactly `2 * m` entries, and the captured segment at 1-based position `N` has both its
normalised name and `key` followed by `N` mapped to `$` followed by `N`. -/
theorem MatchString_labels_of_distinct (s p0 p1 p2 p3 : String) (mid : List String)
    (last : String)
    (h : strings.Split s '.' = p0 :: p1 :: p2 :: p3 :: (mid ++ [last]))
    (hd : (mid.map normalize).Nodup)
    (hk : ∀ p ∈ mid, ∀ j < mid.length, normalize p ≠ "key" ++ toString (j + 1)) :
    ∃ pattern labels, MatchString s true = .ok (pattern, labels) ∧
      labels.entries.length = 2 * mid.length ∧
      ∀ (i : Nat) (hi : i < mid.length),
        labels.lookup (normalize mid[i]) = some ("$" ++ toString (i + 1)) ∧
        labels.lookup ("key" ++ toString (i + 1)) = some ("$" ++ toString (i + 1)) := by
  have hn : (capturePairs 0 mid).NodupKeys :=
    capturePairs_nodupKeys mid 0 hd (fun p hp j h1 h2 => by
      have := hk p hp (j - 1) (by omega)
      have e : j - 1 + 1 = j := by omega
      rwa [e] at this)
  refine ⟨_, _, MatchString_detailed_eq s p0 p1 p2 p3 mid last h, ?_, ?_⟩
  · rw [(insertAll_perm _ hn).length_eq, capturePairs_length]
  · intro i hi
    have hm := mem_capturePairs mid 0 i hi
    simp only [Nat.zero_add] at hm
    rw [insertAll_lookup _ hn, insertAll_lookup _ hn]
    exact ⟨(List.mem_dlookup_iff hn).mpr hm.1, (List.mem_dlookup_iff hn).mpr hm.2⟩

/-- Witness of C4 (amended): two captured segments with distinct names. -/
theorem MatchString_labels_of_distinct_witness :
    strings.Split "ratelimit.service.rate_limit.foo.generic_key_v1.x-y.near_limit" '.'
        = "ratelimit" :: "service" :: "rate_limit" :: "foo" :: (["generic_key_v1", "x-y"] ++ ["near_limit"]) ∧
    (["generic_key_v1", "x-y"].map normalize).Nodup ∧
    (∀ p ∈ ["generic_key_v1", "x-y"], ∀ j < ["generic_key_v1", "x-y"].length,
        normalize p ≠ "key" ++ toString (j + 1)) ∧
    ∃ pattern labels,
      MatchString "ratelimit.service.rate_limit.foo.generic_key_v1.x-y.near_limit" true
        = .ok (pattern, labels) ∧
      labels.entries.length = 2 * ["generic_key_v1", "x-y"].length ∧
      ∀ (i : Nat) (hi : i < ["generic_key_v1", "x-y"].length),
        labels.lookup (normalize ["generic_key_v1", "x-y"][i]) = some ("$" ++ toString (i + 1)) ∧
        labels.lookup ("key" ++ toString (i + 1)) = some ("$" ++ toString (i + 1)) :=
  ⟨by decide, by decide, by decide,
    MatchString_labels_of_distinct _ "ratelimit" "service" "rate_limit" "foo"
      ["generic_key_v1", "x-y"] "near_limit" (by decide) (by decide) (by decide)⟩

/-! ## The rules of one descriptor -/

/-- C5: a descriptor with detailed metrics and a single generic-key action without
explicit key and with value `value` (domain and value without `.`, value without `-`)
yields exactly six rules, each of match type `regex`, whose patterns are the quoted
`ratelimit SEP service SEP rate_limit SEP domain SEP generic_key_<value>_?(.*) SEP <event>`
in event order, and whose label sets hold exactly the six entries identifier,
rate_limit_service_name, global_rate_limit_name, route, `generic_key_<value>: $1` and
`key1: $1`. -/
theorem genericKey_detailed_rules (serviceName name identifier route domain value : String)
    (hd : '.' ∉ domain.data) (hv : '.' ∉ value.data) (hv2 : '-' ∉ value.data) :
    ∃ rules, NewMetricMappingFromGlobalRateLimit serviceName domain
        (genericKeyDescriptor name identifier route value true) = .ok (rules, none) ∧
      rules.length = 6 ∧
      rules.map (fun rule => rule.Match)
        = ["near_limit", "over_limit", "over_limit_with_local_cache", "total_hits", "within_limit",
            "shadow_mode"].map (fun event =>
              "\"" ++ "ratelimit" ++ SEP ++ "service" ++ SEP ++ "rate_limit" ++ SEP ++ domain
                ++ SEP ++ "generic_key_" ++ value ++ "_?(.*)" ++ SEP ++ event ++ "\"") ∧
      ∀ rule ∈ rules, rule.MatchType = "regex" ∧
        rule.Labels.entries.Perm
          [⟨"identifier", identifier⟩, ⟨"rate_limit_service_name", serviceName⟩,
            ⟨"global_rate_limit_name", name⟩, ⟨"route", route⟩,
            ⟨"generic_key_" ++ value, "$1"⟩, ⟨"key1", "$1"⟩] := by
  have htd : '.' ∉ ("generic_key_" ++ value).data := by
    rw [genericKey_token_data]
    simp [hv]
  have htn : normalize ("generic_key_" ++ value) = "generic_key_" ++ value := by
    apply normalize_eq_self
    rw [genericKey_token_data]
    simp [hv2]
  have hrule : ∀ event ∈ eventKinds,
      eventRule serviceName domain (genericKeyDescriptor name identifier route value true)
          identifier route event
        = { Name := "ratelimit_service_rate_limit_" ++ event
            Match := "\"" ++ "ratelimit" ++ SEP ++ "service" ++ SEP ++ "rate_limit" ++ SEP ++ domain
                ++ SEP ++ "generic_key_" ++ value ++ "_?(.*)" ++ SEP ++ event ++ "\""
            MatchType := "regex"
            TimerType := types.ObserverTypeHistogram
            Labels := mergeMaps (staticLabels serviceName name identifier route)
              (((∅ : prometheus.Labels).insert ("generic_key_" ++ value) "$1").insert "key1" "$1") } := by
    intro event he
    have hed : '.' ∉ event.data := by
      simp only [eventKinds, List.mem_cons, List.mem_singleton, List.not_mem_nil, or_false] at he
      rcases he with rfl | rfl | rfl | rfl | rfl | rfl <;> decide
    have hen : normalize event = event := by
      simp only [eventKinds, List.mem_cons, List.mem_singleton, List.not_mem_nil, or_false] at he
      rcases he with rfl | rfl | rfl | rfl | rfl | rfl <;> decide
    simp only [eventRule, genericKeyDescriptor, genericKey_encodedToken,
      compiledMatch_single domain _ event hd htd hed, htn, hen, if_true, String.append_assoc]
  refine ⟨_, NewMetricMappingFromGlobalRateLimit_eq serviceName domain _ identifier route rfl rfl
      (by simp [genericKeyDescriptor]),
    by simp [eventKinds], ?_, ?_⟩
  · rw [List.map_map]
    apply List.map_congr_left
    intro event he
    simp only [Function.comp, hrule event he]
  · intro rule hr
    obtain ⟨event, he, rfl⟩ := List.mem_map.mp hr
    rw [hrule event he]
    refine ⟨rfl, ?_⟩
    have hk1 : "key1" ∉ (∅ : prometheus.Labels).insert ("generic_key_" ++ value) "$1" := by
      rw [AList.mem_insert]
      intro h
      rcases h with h | h
      · exact genericKey_token_ne value "key1" (by simp) h.symm
      · exact AList.not_mem_empty _ h
    have hdyn : (((∅ : prometheus.Labels).insert ("generic_key_" ++ value) "$1").insert
        "key1" "$1").entries = [⟨"key1", "$1"⟩, ⟨"generic_key_" ++ value, "$1"⟩] := by
      rw [AList.insert_entries_of_neg hk1, AList.insert_entries_of_neg (AList.not_mem_empty _)]
      rfl
    have hp := mergeMaps_perm_append (staticLabels serviceName name identifier route)
      (((∅ : prometheus.Labels).insert ("generic_key_" ++ value) "$1").insert "key1" "$1")
      (by
        intro k hk hs
        rw [mem_staticLabels] at hs
        rw [AList.mem_insert, AList.mem_insert] at hk
        rcases hk with rfl | rfl | hk
        · simp at hs
        · exact genericKey_token_ne value _ (by tauto) rfl
        · exact AList.not_mem_empty _ hk)
    rw [hdyn] at hp
    exact hp.trans ((staticLabels_perm _ _ _ _).append (List.Perm.swap _ _ _))

/-- Witness of C5: identifier `foo`, domain `foo`, route `bar`, value `v1`. -/
theorem genericKey_detailed_rules_witness :
    '.' ∉ "foo".data ∧ '.' ∉ "v1".data ∧ '-' ∉ "v1".data ∧
    ∃ rules, NewMetricMappingFromGlobalRateLimit "svc" "foo"
        (genericKeyDescriptor "n" "foo" "bar" "v1" true) = .ok (rules, none) ∧
      rules.length = 6 ∧
      rules.map (fun rule => rule.Match)
        = ["near_limit", "over_limit", "over_limit_with_local_cache", "total_hits", "within_limit",
            "shadow_mode"].map (fun event =>
              "\"" ++ "ratelimit" ++ SEP ++ "service" ++ SEP ++ "rate_limit" ++ SEP ++ "foo"
                ++ SEP ++ "generic_key_" ++ "v1" ++ "_?(.*)" ++ SEP ++ event ++ "\"") ∧
      ∀ rule ∈ rules, rule.MatchType = "regex" ∧
        rule.Labels.entries.Perm
          [⟨"identifier", "foo"⟩, ⟨"rate_limit_service_name", "svc"⟩,
            ⟨"global_rate_limit_name", "n"⟩, ⟨"route", "bar"⟩,
            ⟨"generic_key_" ++ "v1", "$1"⟩, ⟨"key1", "$1"⟩] :=
  ⟨by decide, by decide, by decide,
    genericKey_detailed_rules "svc" "n" "foo" "bar" "foo" "v1" (by decide) (by decide) (by decide)⟩

/-- C6, as stated, fails: the descriptor below has identifier, route and detailed metrics
off, but its `Matcher` holds a nil action pointer; the encoder panics with a nil-pointer
dereference before any rule is built. -/
theorem plain_rules_nil_action_counterexample :
    (nilActionDescriptor "n" "foo" "bar" "v1" false).Spec.Identifier = some "foo" ∧
    (nilActionDescriptor "n" "foo" "bar" "v1" false).Spec.Selector.Route = some "bar" ∧
    (nilActionDescriptor "n" "foo" "bar" "v1" false).Spec.DetailedMetric = false ∧
    NewMetricMappingFromGlobalRateLimit "svc" "foo" (nilActionDescriptor "n" "foo" "bar" "v1" false)
      = .error .nilDereference :=
  ⟨rfl, rfl, rfl, rfl⟩

/-- C6, amended: a descriptor with identifier, route, detailed metrics off and no nil
action pointer in its `Matcher` yields exactly six rules, one per event kind in the fixed
order; the rule of event `e` matches the literal
`ratelimit.service.rate_limit.<domain>.<token>.<e>` where `token` is the encoder's output,
has the empty (plain) match type and the histogram timer type, and its label set holds
exactly the four entries identifier, rate_limit_service_name, global_rate_limit_name and
route. -/
theorem plain_rules (serviceName domain : String) (g : v1alpha1.GlobalRateLimit) (identifier route : String)
    (hid : g.Spec.Identifier = some identifier) (hr : g.Spec.Selector.Route = some route)
    (hdm : g.Spec.DetailedMetric = false) (hnil : ∀ m ∈ g.Spec.Matcher, m ≠ none) :
    ∃ token rules,
      NewStatsdRegexMatcherFromGlobalRateLimitMatcher g.Spec.Matcher false = .ok token ∧
      NewMetricMappingFromGlobalRateLimit serviceName domain g = .ok (rules, none) ∧
      rules.length = 6 ∧
      rules.map (fun rule => rule.Match)
        = ["near_limit", "over_limit", "over_limit_with_local_cache", "total_hits", "within_limit",
            "shadow_mode"].map (fun event =>
              "ratelimit.service.rate_limit." ++ domain ++ "." ++ token ++ "." ++ event) ∧
      ∀ rule ∈ rules, rule.MatchType = "" ∧ rule.TimerType = types.ObserverTypeHistogram ∧
        rule.Labels.entries.Perm
          [⟨"identifier", identifier⟩, ⟨"rate_limit_service_name", serviceName⟩,
            ⟨"global_rate_limit_name", g.Name⟩, ⟨"route", route⟩] := by
  refine ⟨encodedToken g.Spec.Matcher false, _, encoder_ok_of_nonnil _ _ hnil,
    NewMetricMappingFromGlobalRateLimit_eq serviceName domain g identifier route hid hr hnil,
    by simp [eventKinds], ?_, ?_⟩
  · simp only [eventKinds, List.map_cons, List.map_nil, eventRule_plain _ _ _ _ _ _ hdm,
      canonicalPath]
  · intro rule hrule
    obtain ⟨event, _, rfl⟩ := List.mem_map.mp hrule
    rw [eventRule_plain _ _ _ _ _ _ hdm]
    refine ⟨rfl, rfl, ?_⟩
    have hp := mergeMaps_perm_append (staticLabels serviceName g.Name identifier route) ∅
      (fun k hk => absurd hk (AList.not_mem_empty k))
    simp only [AList.empty_entries, List.append_nil] at hp
    exact hp.trans (staticLabels_perm _ _ _ _)

/-- Witness of C6 (amended): identifier `foo`, domain `foo`, route `bar`, one generic-key
action of value `v1`; the token is `generic_key_v1`. -/
theorem plain_rules_witness :
    (genericKeyDescriptor "n" "foo" "bar" "v1" false).Spec.Identifier = some "foo" ∧
    (genericKeyDescriptor "n" "foo" "bar" "v1" false).Spec.Selector.Route = some "bar" ∧
    (genericKeyDescriptor "n" "foo" "bar" "v1" false).Spec.DetailedMetric = false ∧
    (∀ m ∈ (genericKeyDescriptor "n" "foo" "bar" "v1" false).Spec.Matcher, m ≠ none) ∧
    NewStatsdRegexMatcherFromGlobalRateLimitMatcher
      (genericKeyDescriptor "n" "foo" "bar" "v1" false).Spec.Matcher false
        = .ok "generic_key_v1" ∧
    ∃ token rules,
      NewStatsdRegexMatcherFromGlobalRateLimitMatcher
        (genericKeyDescriptor "n" "foo" "bar" "v1" false).Spec.Matcher false = .ok token ∧
      NewMetricMappingFromGlobalRateLimit "svc" "foo"
        (genericKeyDescriptor "n" "foo" "bar" "v1" false) = .ok (rules, none) ∧
      rules.length = 6 ∧
      rules.map (fun rule => rule.Match)
        = ["near_limit", "over_limit", "over_limit_with_local_cache", "total_hits", "within_limit",
            "shadow_mode"].map (fun event =>
              "ratelimit.service.rate_limit." ++ "foo" ++ "." ++ token ++ "." ++ event) ∧
      ∀ rule ∈ rules, rule.MatchType = "" ∧ rule.TimerType = types.ObserverTypeHistogram ∧
        rule.Labels.entries.Perm
          [⟨"identifier", "foo"⟩, ⟨"rate_limit_service_name", "svc"⟩,
            ⟨"global_rate_limit_name", (genericKeyDescriptor "n" "foo" "bar" "v1" false).Name⟩,
            ⟨"route", "bar"⟩] :=
  ⟨rfl, rfl, rfl, by decide, by decide,
    plain_rules "svc" "foo" (genericKeyDescriptor "n" "foo" "bar" "v1" false) "foo" "bar" rfl rfl rfl
      (by decide)⟩

/-- C7: with detailed metrics off, `MatchString` returns its argument unchanged together
with the empty label set. -/
theorem MatchString_plain (s : String) : MatchString s false = .ok (s, ∅) := by
  simp [MatchString]

/-! ## The encoder -/

/-- C8, as stated, fails: the slice below holds a generic-key action followed by a nil
pointer; every action in it has at most one variant populated, but the encoder panics
with a nil-pointer dereference instead of returning a token. -/
theorem encoder_nil_action_counterexample :
    (∀ a, some a ∈ [some ({ GenericKey := some { DescriptorValue := "v1" } } :
          v1alpha1.GlobalRateLimit_Action), none] → populated a ≤ 1) ∧
    NewStatsdRegexMatcherFromGlobalRateLimitMatcher
        [some { GenericKey := some { DescriptorValue := "v1" } }, none] true
      = .error .nilDereference ∧
    NewStatsdRegexMatcherFromGlobalRateLimitMatcher
        [some { GenericKey := some { DescriptorValue := "v1" } }, none] false
      = .error .nilDereference := by
  refine ⟨?_, rfl, rfl⟩
  intro a ha
  simp only [List.mem_cons, Option.some.injEq, List.mem_singleton, List.not_mem_nil,
    or_false] at ha
  rcases ha with rfl | ha
  · decide
  · exact absurd ha (by simp)

/-- C8, amended: for a sequence of non-nil action pointers whose actions each have at
most one variant populated, and either value of the flag, the encoder returns the tokens
of the actions joined with `.`, the token being the one the specification gives
(`specToken`). -/
theorem encoder_eq_join_specToken (actions : List v1alpha1.GlobalRateLimit_Action)
    (detailedMetric : Bool) (h : ∀ a ∈ actions, populated a ≤ 1) :
    NewStatsdRegexMatcherFromGlobalRateLimitMatcher (actions.map some) detailedMetric
      = .ok (strings.Join (actions.map specToken) ".") := by
  rw [encoder_map_some]
  congr 2
  apply List.map_congr_left
  intro a ha
  exact appendedText_eq_specToken a (h a ha)

/-- Witness of C8 (amended): one action of each kind, with and without generic key, and
an action with no variant populated. -/
theorem encoder_eq_join_specToken_witness :
    (∀ a ∈ ([{ RequestHeaders := some { DescriptorKey := "x-user" } }, { RemoteAddress := some {} },
          { GenericKey := some { DescriptorValue := "v1", DescriptorKey := some "k" } },
          { GenericKey := some { DescriptorValue := "v2" } },
          { HeaderValueMatch := some { DescriptorValue := "m" } }, {}] :
          List v1alpha1.GlobalRateLimit_Action), populated a ≤ 1) ∧
    NewStatsdRegexMatcherFromGlobalRateLimitMatcher
        (([{ RequestHeaders := some { DescriptorKey := "x-user" } }, { RemoteAddress := some {} },
          { GenericKey := some { DescriptorValue := "v1", DescriptorKey := some "k" } },
          { GenericKey := some { DescriptorValue := "v2" } },
          { HeaderValueMatch := some { DescriptorValue := "m" } }, {}] :
          List v1alpha1.GlobalRateLimit_Action).map some) true
      = .ok (strings.Join
          (([{ RequestHeaders := some { DescriptorKey := "x-user" } }, { RemoteAddress := some {} },
          { GenericKey := some { DescriptorValue := "v1", DescriptorKey := some "k" } },
          { GenericKey := some { DescriptorValue := "v2" } },
          { HeaderValueMatch := some { DescriptorValue := "m" } }, {}] :
            List v1alpha1.GlobalRateLimit_Action).map specToken) ".") :=
  ⟨by decide, encoder_eq_join_specToken _ true (by decide)⟩

/-! ## Label merge -/

/-- C9: `mergeMaps A B` maps a key to `B`'s value when the key is in `B`, to `A`'s value
when it is in `A` but not in `B`, and has no entry for it otherwise. (The embedding is a
pure function: its arguments are read, never written.) -/
theorem mergeMaps_lookup (A B : prometheus.Labels) (k : String) :
    (mergeMaps A B).lookup k
      = if k ∈ B then B.lookup k else if k ∈ A then A.lookup k else none := by
  rw [mergeMaps_lookup_orElse]
  by_cases hB : k ∈ B
  · obtain ⟨v, hv⟩ := Option.isSome_iff_exists.mp (AList.lookup_isSome.mpr hB)
    simp [hB, hv]
  · have hv := AList.lookup_eq_none.mpr hB
    by_cases hA : k ∈ A
    · simp [hB, hA, hv]
    · simp [hB, hA, hv, AList.lookup_eq_none.mpr hA]

/-- C10: `mergeMaps` is idempotent: `mergeMaps A A` is the map `A`, and merging `B` into
`mergeMaps A B` again gives the map `mergeMaps A B` (equality of maps: the same entries,
in any order). -/
theorem mergeMaps_idempotent (A B : prometheus.Labels) :
    (mergeMaps A A).entries.Perm A.entries ∧
    (mergeMaps (mergeMaps A B) B).entries.Perm (mergeMaps A B).entries := by
  constructor
  · apply perm_of_lookup_eq
    intro k
    rw [mergeMaps_lookup_orElse]
    cases h : A.lookup k <;> simp [h]
  · apply perm_of_lookup_eq
    intro k
    rw [mergeMaps_lookup_orElse, mergeMaps_lookup_orElse]
    cases h : B.lookup k <;> simp [h]

/-! ## Failure of the aggregator -/

/-- C11, at its failing input: a descriptor with identifier `baz` and no route, after a
well-formed one. `NewStatsdConfig` panics with a nil-pointer dereference: it returns
neither a mapping configuration nor an error value to its caller. A descriptor with
neither identifier nor route is skipped and causes no failure. -/
theorem NewStatsdConfig_nil_route_panics :
    NewStatsdConfig "svc" "foo"
        [genericKeyDescriptor "a" "foo" "bar" "v1" false,
          { Name := "b", Spec := { Identifier := some "baz" } }]
      = .error .nilDereference ∧
    (∀ metricMapper err, NewStatsdConfig "svc" "foo"
        [genericKeyDescriptor "a" "foo" "bar" "v1" false,
          { Name := "b", Spec := { Identifier := some "baz" } }]
      ≠ .ok (metricMapper, err)) ∧
    NewStatsdConfig "svc" "foo" [{ Name := "c", Spec := {} }]
      = .ok ({ Mappings := NewDefaultMetricMapping }, none) := by
  have h := NewStatsdConfig_panics "svc" "foo"
    [genericKeyDescriptor "a" "foo" "bar" "v1" false,
      { Name := "b", Spec := { Identifier := some "baz" } }]
    ⟨{ Name := "b", Spec := { Identifier := some "baz" } }, by simp, by decide, by decide⟩
  refine ⟨h, ?_, rfl⟩
  intro m e he
  rw [h] at he
  exact Except.noConfusion he

/-! ## Rule names -/

/-- C12, as stated, fails: with two descriptors that have an identifier `NewStatsdConfig`
succeeds and the rule names are not pairwise distinct. -/
theorem NewStatsdConfig_names_counterexample :
    ∃ metricMapper,
      NewStatsdConfig "svc" "foo"
        [genericKeyDescriptor "a" "foo" "bar" "v1" false,
          genericKeyDescriptor "b" "baz" "qux" "v2" false] = .ok (metricMapper, none) ∧
      ¬ (metricMapper.Mappings.map fun rule => rule.Name).Nodup :=
  ⟨_, rfl, by decide⟩

/-- C12, amended: when `NewStatsdConfig` succeeds, the rule names are the six names
`ratelimit_service_rate_limit_<event>` once per descriptor with an identifier, followed
by the six default names; they are pairwise distinct exactly when at most one descriptor
has an identifier. -/
theorem NewStatsdConfig_names (serviceName domain : String) (l : List v1alpha1.GlobalRateLimit)
    (metricMapper : types.MetricMapper) (err : error)
    (h : NewStatsdConfig serviceName domain l = .ok (metricMapper, err)) :
    ((metricMapper.Mappings.map fun rule => rule.Name).Nodup
        ↔ (l.filter fun g => g.Spec.Identifier.isSome).length ≤ 1) ∧
      metricMapper.Mappings.map (fun rule => rule.Name)
        = (List.replicate (l.filter fun g => g.Spec.Identifier.isSome).length
            eventRuleNames).flatten ++ defaultRuleNames := by
  have hroutes := pointersSet_of_success serviceName domain l _ h
  rw [NewStatsdConfig_eq serviceName domain l hroutes] at h
  have hm := congrArg Prod.fst (Except.ok.inj h)
  simp only at hm
  subst hm
  have hnames : (((l.filter fun g => g.Spec.Identifier.isSome).flatMap
        (rulesOf serviceName domain) ++ NewDefaultMetricMapping).map fun rule => rule.Name)
      = (List.replicate (l.filter fun g => g.Spec.Identifier.isSome).length
            eventRuleNames).flatten ++ defaultRuleNames := by
    rw [List.map_append, flatMap_rulesOf_names serviceName domain l hroutes]
    rfl
  refine ⟨?_, hnames⟩
  rw [hnames]
  exact nodup_replicated_names _

/-- Witness of C12 (amended): one descriptor with identifier and route. -/
theorem NewStatsdConfig_names_witness :
    NewStatsdConfig "svc" "foo" [genericKeyDescriptor "a" "foo" "bar" "v1" false]
        = .ok ({ Mappings := rulesOf "svc" "foo" (genericKeyDescriptor "a" "foo" "bar" "v1" false)
                  ++ NewDefaultMetricMapping }, none) ∧
    ((((rulesOf "svc" "foo" (genericKeyDescriptor "a" "foo" "bar" "v1" false)
          ++ NewDefaultMetricMapping).map fun rule => rule.Name).Nodup
        ↔ ([genericKeyDescriptor "a" "foo" "bar" "v1" false].filter
            fun g => g.Spec.Identifier.isSome).length ≤ 1) ∧
      (rulesOf "svc" "foo" (genericKeyDescriptor "a" "foo" "bar" "v1" false)
          ++ NewDefaultMetricMapping).map (fun rule => rule.Name)
        = (List.replicate ([genericKeyDescriptor "a" "foo" "bar" "v1" false].filter
            fun g => g.Spec.Identifier.isSome).length eventRuleNames).flatten
          ++ defaultRuleNames) :=
  ⟨rfl, NewStatsdConfig_names "svc" "foo" [genericKeyDescriptor "a" "foo" "bar" "v1" false]
    (types.MetricMapper.mk (rulesOf "svc" "foo" (genericKeyDescriptor "a" "foo" "bar" "v1" false)
      ++ NewDefaultMetricMapping)) none rfl⟩

/-! ## The domain in the compiled pattern -/

/-- C13, at its failing input: for the domain `a.b` the fourth segment is `a`, so the
patterns do not begin with the domain verbatim; the rest of the domain, `b`, is captured
as group 1 and the descriptor token `generic_key_v1` moves to group 2. -/
theorem dotted_domain_patterns :
    ∃ rules,
      NewMetricMappingFromGlobalRateLimit "svc" "a.b" (genericKeyDescriptor "n" "foo" "bar" "v1" true)
        = .ok (rules, none) ∧
      rules.map (fun rule => rule.Match)
        = ["\"ratelimit\\\\.service\\\\.rate_limit\\\\.a\\\\.b_?(.*)\\\\.generic_key_v1_?(.*)\\\\.near_limit\"",
            "\"ratelimit\\\\.service\\\\.rate_limit\\\\.a\\\\.b_?(.*)\\\\.generic_key_v1_?(.*)\\\\.over_limit\"",
            "\"ratelimit\\\\.service\\\\.rate_limit\\\\.a\\\\.b_?(.*)\\\\.generic_key_v1_?(.*)\\\\.over_limit_with_local_cache\"",
            "\"ratelimit\\\\.service\\\\.rate_limit\\\\.a\\\\.b_?(.*)\\\\.generic_key_v1_?(.*)\\\\.total_hits\"",
            "\"ratelimit\\\\.service\\\\.rate_limit\\\\.a\\\\.b_?(.*)\\\\.generic_key_v1_?(.*)\\\\.within_limit\"",
            "\"ratelimit\\\\.service\\\\.rate_limit\\\\.a\\\\.b_?(.*)\\\\.generic_key_v1_?(.*)\\\\.shadow_mode\""] ∧
      ∀ rule ∈ rules,
        rule.Labels.lookup "b" = some "$1" ∧ rule.Labels.lookup "key1" = some "$1" ∧
        rule.Labels.lookup "generic_key_v1" = some "$2" ∧ rule.Labels.lookup "key2" = some "$2" :=
  ⟨_, rfl, by decide, by decide⟩

/-! ## Static labels and their overrides -/

/-- C14: for a descriptor with identifier and route and either value of the flag, whose
actions the encoder encodes to `token`, each of the six rules has the four keys identifier, rate_limit_service_name,
global_rate_limit_name and route in its label set; the value at such a key is the static
value when no captured segment has that normalised name, and otherwise `$N` for the
1-based position `N` of the last captured segment with that normalised name. -/
theorem static_label_values (serviceName domain : String) (g : v1alpha1.GlobalRateLimit)
    (identifier route token : String)
    (hid : g.Spec.Identifier = some identifier) (hr : g.Spec.Selector.Route = some route)
    (htok : NewStatsdRegexMatcherFromGlobalRateLimitMatcher g.Spec.Matcher g.Spec.DetailedMetric
      = .ok token) :
    ∃ rules, NewMetricMappingFromGlobalRateLimit serviceName domain g = .ok (rules, none) ∧
      rules.length = 6 ∧
      ∀ re ∈ rules.zip eventKinds,
        ∀ kv ∈ [("identifier", identifier), ("rate_limit_service_name", serviceName),
            ("global_rate_limit_name", g.Name), ("route", route)],
          kv.1 ∈ re.1.Labels.keys ∧
          ((∀ p ∈ capturedSegments (canonicalPath domain token re.2) g.Spec.DetailedMetric, normalize p ≠ kv.1) →
            re.1.Labels.lookup kv.1 = some kv.2) ∧
          (∀ (pre : List String) (p : String) (post : List String),
            capturedSegments (canonicalPath domain token re.2) g.Spec.DetailedMetric = pre ++ p :: post →
            normalize p = kv.1 → (∀ q ∈ post, normalize q ≠ kv.1) →
            re.1.Labels.lookup kv.1 = some ("$" ++ toString (pre.length + 1))) := by
  have htoken := encodedToken_eq _ _ _ htok
  refine ⟨_, NewMetricMappingFromGlobalRateLimit_eq serviceName domain g identifier route hid hr
      (nonnil_of_encoder_ok _ _ _ htok),
    by simp [eventKinds], ?_⟩
  intro re hre kv hkv
  rw [List.zip_map_left, List.mem_map] at hre
  obtain ⟨⟨e1, e2⟩, hmem, rfl⟩ := hre
  have he : e1 = e2 := by
    simp only [eventKinds, List.zip_cons_cons, List.zip_nil_right, List.mem_cons,
      List.mem_singleton, Prod.mk.injEq, List.not_mem_nil, or_false] at hmem
    rcases hmem with ⟨rfl, rfl⟩ | ⟨rfl, rfl⟩ | ⟨rfl, rfl⟩ | ⟨rfl, rfl⟩ | ⟨rfl, rfl⟩ | ⟨rfl, rfl⟩ <;> rfl
  subst he
  have h5 : 5 ≤ (strings.Split (canonicalPath domain token e1) '.').length := by
    have := canonicalPath_length domain token e1
    omega
  have hk : ∀ j : Nat, kv.1 ≠ "key" ++ toString j :=
    fun j => static_key_ne_key serviceName g.Name identifier route j kv hkv
  have hstatic := staticLabels_lookup serviceName g.Name identifier route kv hkv
  simp only [Prod.map, id, eventRule, htoken]
  refine ⟨?_, ?_⟩
  · apply AList.mem_keys.mp
    apply AList.lookup_isSome.mp
    rw [mergeMaps_lookup_orElse, hstatic]
    cases AList.lookup kv.1 (compiledMatch (canonicalPath domain token e1)
      g.Spec.DetailedMetric).2 <;> rfl
  rw [mergeMaps_lookup_orElse, compiledMatch_labels _ _ h5]
  refine ⟨?_, ?_⟩
  · intro hnone
    rw [insertAll_capturePairs_lookup_of_not_mem kv.1 hk _ 0 ∅ hnone]
    simp [hstatic]
  · intro pre p post hcap hp hpost
    rw [hcap, insertAll_capturePairs_lookup_last kv.1 hk pre p post ∅ hp hpost]
    rfl

/-- Witness of C14: the captured segment `route` overrides the static route label. -/
theorem static_label_values_witness :
    (routeHeaderDescriptor "n" "foo" "bar").Spec.Identifier = some "foo" ∧
    (routeHeaderDescriptor "n" "foo" "bar").Spec.Selector.Route = some "bar" ∧
    NewStatsdRegexMatcherFromGlobalRateLimitMatcher
        (routeHeaderDescriptor "n" "foo" "bar").Spec.Matcher
        (routeHeaderDescriptor "n" "foo" "bar").Spec.DetailedMetric = .ok "route" ∧
    ∃ rules, NewMetricMappingFromGlobalRateLimit "svc" "dom" (routeHeaderDescriptor "n" "foo" "bar")
        = .ok (rules, none) ∧
      rules.length = 6 ∧
      ∀ re ∈ rules.zip eventKinds,
        ∀ kv ∈ [("identifier", "foo"), ("rate_limit_service_name", "svc"),
            ("global_rate_limit_name", (routeHeaderDescriptor "n" "foo" "bar").Name),
            ("route", "bar")],
          kv.1 ∈ re.1.Labels.keys ∧
          ((∀ p ∈ capturedSegments (canonicalPath "dom" "route" re.2)
                (routeHeaderDescriptor "n" "foo" "bar").Spec.DetailedMetric,
              normalize p ≠ kv.1) →
            re.1.Labels.lookup kv.1 = some kv.2) ∧
          (∀ (pre : List String) (p : String) (post : List String),
            capturedSegments (canonicalPath "dom" "route" re.2)
                (routeHeaderDescriptor "n" "foo" "bar").Spec.DetailedMetric = pre ++ p :: post →
            normalize p = kv.1 → (∀ q ∈ post, normalize q ≠ kv.1) →
            re.1.Labels.lookup kv.1 = some ("$" ++ toString (pre.length + 1))) :=
  ⟨rfl, rfl, by decide,
    static_label_values "svc" "dom" (routeHeaderDescriptor "n" "foo" "bar") "foo" "bar" "route"
      rfl rfl (by decide)⟩

/-- C15: for a string with at least four segments and either flag value, no key of the
label set `MatchString` returns contains `-`; for a descriptor with identifier, route and
no nil action pointer `NewMetricMappingFromGlobalRateLimit` returns rules, and no label
key of a rule it returns contains `-`, whatever the descriptor keys and values are. -/
theorem label_keys_no_dash :
    (∀ (s : String) (detailed : Bool), 4 ≤ (strings.Split s '.').length →
      ∃ pattern labels, MatchString s detailed = .ok (pattern, labels) ∧
        ∀ k ∈ labels.keys, '-' ∉ k.data) ∧
    (∀ (serviceName domain : String) (g : v1alpha1.GlobalRateLimit),
      g.Spec.Identifier ≠ none → g.Spec.Selector.Route ≠ none →
      (∀ m ∈ g.Spec.Matcher, m ≠ none) →
      ∃ rules, NewMetricMappingFromGlobalRateLimit serviceName domain g = .ok (rules, none) ∧
        ∀ rule ∈ rules, ∀ k ∈ rule.Labels.keys, '-' ∉ k.data) ∧
    (∀ (serviceName domain : String) (g : v1alpha1.GlobalRateLimit)
      (rules : List types.MetricMapping) (err : error),
      NewMetricMappingFromGlobalRateLimit serviceName domain g = .ok (rules, err) →
      ∀ rule ∈ rules, ∀ k ∈ rule.Labels.keys, '-' ∉ k.data) := by
  have hrules : ∀ (serviceName domain : String) (g : v1alpha1.GlobalRateLimit),
      g.Spec.Identifier ≠ none → g.Spec.Selector.Route ≠ none →
      (∀ m ∈ g.Spec.Matcher, m ≠ none) →
      ∃ rules, NewMetricMappingFromGlobalRateLimit serviceName domain g = .ok (rules, none) ∧
        ∀ rule ∈ rules, ∀ k ∈ rule.Labels.keys, '-' ∉ k.data := by
    intro serviceName domain g hid hr hnil
    obtain ⟨identifier, hid⟩ := Option.ne_none_iff_exists'.mp hid
    obtain ⟨route, hr⟩ := Option.ne_none_iff_exists'.mp hr
    refine ⟨_, NewMetricMappingFromGlobalRateLimit_eq serviceName domain g identifier route hid hr
      hnil, ?_⟩
    intro rule hrule k hk
    obtain ⟨event, _, rfl⟩ := List.mem_map.mp hrule
    simp only [eventRule] at hk
    rcases mem_keys_mergeMaps _ _ k hk with h1 | h1
    · have := (mem_staticLabels serviceName g.Name identifier route k).mp (AList.mem_keys.mpr h1)
      rcases this with rfl | rfl | rfl | rfl <;> decide
    · have h5 : 5 ≤ (strings.Split (canonicalPath domain
          (encodedToken g.Spec.Matcher g.Spec.DetailedMetric) event) '.').length := by
        have := canonicalPath_length domain
          (encodedToken g.Spec.Matcher g.Spec.DetailedMetric) event
        omega
      rw [compiledMatch_labels _ _ h5] at h1
      rcases mem_keys_insertAll_capturePairs _ k h1 with h2 | ⟨j, rfl⟩
      · obtain ⟨p, _, rfl⟩ := List.mem_map.mp h2
        exact normalize_no_dash p
      · exact key_no_dash j
  refine ⟨MatchString_label_keys, hrules, ?_⟩
  intro serviceName domain g rules err h
  obtain ⟨hid, hr, hnil⟩ := pointers_of_rules serviceName domain g _ h
  obtain ⟨rules2, h2, hkeys⟩ := hrules serviceName domain g hid hr hnil
  rw [h2] at h
  injection h with h
  injection h with h3 _
  exact h3 ▸ hkeys

/-- Witness of C15: a path with a dashed segment, and a descriptor whose header key has
dashes. -/
theorem label_keys_no_dash_witness :
    (4 ≤ (strings.Split "ratelimit.service.rate_limit.foo.x-y.near_limit" '.').length ∧
      ∃ pattern labels,
        MatchString "ratelimit.service.rate_limit.foo.x-y.near_limit" true = .ok (pattern, labels) ∧
        ∀ k ∈ labels.keys, '-' ∉ k.data) ∧
    ((genericKeyDescriptor "n" "foo" "bar" "v-1" true).Spec.Identifier ≠ none ∧
      (genericKeyDescriptor "n" "foo" "bar" "v-1" true).Spec.Selector.Route ≠ none ∧
      (∀ m ∈ (genericKeyDescriptor "n" "foo" "bar" "v-1" true).Spec.Matcher, m ≠ none) ∧
      ∃ rules, NewMetricMappingFromGlobalRateLimit "svc" "foo"
          (genericKeyDescriptor "n" "foo" "bar" "v-1" true) = .ok (rules, none) ∧
        ∀ rule ∈ rules, ∀ k ∈ rule.Labels.keys, '-' ∉ k.data) ∧
    (NewMetricMappingFromGlobalRateLimit "svc" "foo"
        (genericKeyDescriptor "n" "foo" "bar" "v-1" true)
        = .ok (eventKinds.map (eventRule "svc" "foo"
            (genericKeyDescriptor "n" "foo" "bar" "v-1" true) "foo" "bar"), none) ∧
      ∀ rule ∈ eventKinds.map (eventRule "svc" "foo"
            (genericKeyDescriptor "n" "foo" "bar" "v-1" true) "foo" "bar"),
        ∀ k ∈ rule.Labels.keys, '-' ∉ k.data) :=
  ⟨⟨by decide, label_keys_no_dash.1 _ true (by decide)⟩,
    ⟨by decide, by decide, by decide, label_keys_no_dash.2.1 "svc" "foo"
      (genericKeyDescriptor "n" "foo" "bar" "v-1" true) (by decide) (by decide) (by decide)⟩,
    ⟨NewMetricMappingFromGlobalRateLimit_eq "svc" "foo"
        (genericKeyDescriptor "n" "foo" "bar" "v-1" true) "foo" "bar" rfl rfl (by decide),
      label_keys_no_dash.2.2 "svc" "foo" (genericKeyDescriptor "n" "foo" "bar" "v-1" true) _ none
        (NewMetricMappingFromGlobalRateLimit_eq "svc" "foo"
          (genericKeyDescriptor "n" "foo" "bar" "v-1" true) "foo" "bar" rfl rfl (by decide))⟩⟩

/-! ## The default catalog -/

/-- C16: for every service name and domain, `NewStatsdConfig` on the empty list returns,
without error, exactly the six default rules, in the stated order of names, the first with
label `err_type: $1`, the next two with label `grpc_method: $1`, the last three without
labels; the result depends on neither the service name nor the domain. -/
theorem NewStatsdConfig_empty (serviceName domain : String) :
    NewStatsdConfig serviceName domain [] = .ok ({ Mappings := NewDefaultMetricMapping }, none) ∧
    NewDefaultMetricMapping.map (fun rule => (rule.Name, rule.Labels.entries))
      = [("ratelimit_service_should_rate_limit_error", [⟨"err_type", "$1"⟩]),
          ("ratelimit_service_total_requests", [⟨"grpc_method", "$1"⟩]),
          ("ratelimit_service_response_time_seconds", [⟨"grpc_method", "$1"⟩]),
          ("ratelimit_service_config_load_success", []),
          ("ratelimit_service_config_load_error", []),
          ("ratelimit_service_global_shadow_mode", [])] :=
  ⟨rfl, rfl⟩

/-- C17, as stated, fails: the rule `ratelimit_service_config_load_success` of the default
catalog does not have its metric kind set to counter (the field is left at its zero
value). -/
theorem default_rules_metric_type_counterexample :
    ∃ rule ∈ NewDefaultMetricMapping,
      rule.Name = "ratelimit_service_config_load_success" ∧
      rule.MatchMetricType ≠ types.MetricTypeCounter :=
  ⟨_, List.mem_cons_of_mem _ (List.mem_cons_of_mem _ (List.mem_cons_of_mem _
    (List.mem_cons_self _ _))), rfl, by decide⟩

/-- C17, amended: no rule of the default catalog has a match kind set; the first two
rules have the metric kind counter, the response-time rule has the histogram timer type
and no metric kind, and the three bare rules have neither metric kind nor timer type. -/
theorem default_rules_kinds :
    (∀ rule ∈ NewDefaultMetricMapping, rule.MatchType = "") ∧
    NewDefaultMetricMapping.map (fun rule => (rule.Name, rule.MatchMetricType, rule.TimerType))
      = [("ratelimit_service_should_rate_limit_error", types.MetricTypeCounter, ""),
          ("ratelimit_service_total_requests", types.MetricTypeCounter, ""),
          ("ratelimit_service_response_time_seconds", "", types.ObserverTypeHistogram),
          ("ratelimit_service_config_load_success", "", ""),
          ("ratelimit_service_config_load_error", "", ""),
          ("ratelimit_service_global_shadow_mode", "", "")] := by
  refine ⟨?_, rfl⟩
  intro rule hrule
  simp only [NewDefaultMetricMapping, List.mem_cons, List.mem_singleton, List.not_mem_nil,
    or_false] at hrule
  rcases hrule with rfl | rfl | rfl | rfl | rfl | rfl <;> rfl

/-! ## Bounds on the capture labels -/

/-- C18: for a string with segments `p0 .. p3`, `mid`, `last`, the label set
`MatchString s true` returns has at most `2 * m` entries and every value is `$N` for some
`1 ≤ N ≤ m`, where `m` is the number of captured segments `mid`. When the captured
segments have pairwise distinct normalised names, none equal to `key` followed by the
decimal of a position `1 .. m`, it has exactly `2 * m` entries, every `$1 .. $m` occurs
as a value, and the `N`-th captured segment's normalised name and `key` followed by `N`
are both mapped to `$N`. -/
theorem MatchString_labels_bounds (s p0 p1 p2 p3 : String) (mid : List String) (last : String)
    (h : strings.Split s '.' = p0 :: p1 :: p2 :: p3 :: (mid ++ [last])) :
    ∃ pattern labels, MatchString s true = .ok (pattern, labels) ∧
      labels.entries.length ≤ 2 * mid.length ∧
      (∀ e ∈ labels.entries, ∃ N, 1 ≤ N ∧ N ≤ mid.length ∧ e.2 = "$" ++ toString N) ∧
      ((mid.map normalize).Nodup →
        (∀ p ∈ mid, ∀ j < mid.length, normalize p ≠ "key" ++ toString (j + 1)) →
        labels.entries.length = 2 * mid.length ∧
        (∀ N, 1 ≤ N → N ≤ mid.length → ∃ e ∈ labels.entries, e.2 = "$" ++ toString N) ∧
        ∀ (i : Nat) (hi : i < mid.length),
          labels.lookup (normalize mid[i]) = some ("$" ++ toString (i + 1)) ∧
          labels.lookup ("key" ++ toString (i + 1)) = some ("$" ++ toString (i + 1))) := by
  refine ⟨_, _, MatchString_detailed_eq s p0 p1 p2 p3 mid last h, ?_, ?_, ?_⟩
  · have := (insertAll_entries (capturePairs 0 mid) ∅).1
    rw [capturePairs_length] at this
    simpa using this
  · intro e he
    rcases (insertAll_entries (capturePairs 0 mid) ∅).2 e he with h1 | h1
    · obtain ⟨N, h2, h3, h4⟩ := capturePairs_values mid 0 e h1
      exact ⟨N, h2, by omega, h4⟩
    · simp at h1
  · intro hd hk
    have hn : (capturePairs 0 mid).NodupKeys :=
      capturePairs_nodupKeys mid 0 hd (fun p hp j h1 h2 => by
        have := hk p hp (j - 1) (by omega)
        have e : j - 1 + 1 = j := by omega
        rwa [e] at this)
    have hlook : ∀ (i : Nat) (hi : i < mid.length),
        (insertAll (capturePairs 0 mid) ∅).lookup (normalize mid[i])
            = some ("$" ++ toString (i + 1)) ∧
          (insertAll (capturePairs 0 mid) ∅).lookup ("key" ++ toString (i + 1))
            = some ("$" ++ toString (i + 1)) := by
      intro i hi
      have hm := mem_capturePairs mid 0 i hi
      simp only [Nat.zero_add] at hm
      rw [insertAll_lookup _ hn, insertAll_lookup _ hn]
      exact ⟨(List.mem_dlookup_iff hn).mpr hm.1, (List.mem_dlookup_iff hn).mpr hm.2⟩
    refine ⟨?_, ?_, hlook⟩
    · rw [(insertAll_perm _ hn).length_eq, capturePairs_length]
    · intro N h1 h2
      have := (hlook (N - 1) (by omega)).2
      have e : N - 1 + 1 = N := by omega
      rw [e] at this
      exact ⟨⟨"key" ++ toString N, "$" ++ toString N⟩, AList.mem_lookup_iff.mp this, rfl⟩

/-- Witness of C18: two captured segments with distinct names, so that the exact count
and the lookups hold as well. -/
theorem MatchString_labels_bounds_witness :
    strings.Split "ratelimit.service.rate_limit.foo.generic_key_v1.x-y.near_limit" '.'
        = "ratelimit" :: "service" :: "rate_limit" :: "foo" :: (["generic_key_v1", "x-y"] ++ ["near_limit"]) ∧
    ∃ pattern labels,
      MatchString "ratelimit.service.rate_limit.foo.generic_key_v1.x-y.near_limit" true
        = .ok (pattern, labels) ∧
      labels.entries.length ≤ 2 * ["generic_key_v1", "x-y"].length ∧
      (∀ e ∈ labels.entries,
        ∃ N, 1 ≤ N ∧ N ≤ ["generic_key_v1", "x-y"].length ∧ e.2 = "$" ++ toString N) ∧
      (labels.entries.length = 2 * ["generic_key_v1", "x-y"].length ∧
        (∀ N, 1 ≤ N → N ≤ ["generic_key_v1", "x-y"].length →
          ∃ e ∈ labels.entries, e.2 = "$" ++ toString N) ∧
        ∀ (i : Nat) (hi : i < ["generic_key_v1", "x-y"].length),
          labels.lookup (normalize ["generic_key_v1", "x-y"][i]) = some ("$" ++ toString (i + 1)) ∧
          labels.lookup ("key" ++ toString (i + 1)) = some ("$" ++ toString (i + 1))) :=
  ⟨by decide,
    match MatchString_labels_bounds _ "ratelimit" "service" "rate_limit" "foo"
      ["generic_key_v1", "x-y"] "near_limit" (by decide) with
    | ⟨pattern, labels, h1, h2, h3, h4⟩ =>
      ⟨pattern, labels, h1, h2, h3, h4 (by decide) (by decide)⟩⟩

/-! ## The six blocks as one construction -/

/-- C19: for a descriptor with identifier and route whose actions the encoder encodes to
`token`, the six blocks of
`NewMetricMappingFromGlobalRateLimit` return the list obtained by mapping one
construction over the event kinds in order: the rule of event `e` has the name
`ratelimit_service_rate_limit_` followed by `e`, the match `MatchString` builds from the
canonical path ending in `.` and `e`, the same match type and label set as the other
five, and the histogram timer type. -/
theorem six_blocks_uniform (serviceName domain : String) (g : v1alpha1.GlobalRateLimit)
    (identifier route token : String)
    (hid : g.Spec.Identifier = some identifier) (hr : g.Spec.Selector.Route = some route)
    (htok : NewStatsdRegexMatcherFromGlobalRateLimitMatcher g.Spec.Matcher g.Spec.DetailedMetric
      = .ok token) :
    ∃ (labels : prometheus.Labels) (pattern : String → String),
      NewMetricMappingFromGlobalRateLimit serviceName domain g
        = .ok (eventKinds.map (fun event =>
            ({ Name := "ratelimit_service_rate_limit_" ++ event
               Match := pattern event
               MatchType := if g.Spec.DetailedMetric then "regex" else ""
               TimerType := types.ObserverTypeHistogram
               Labels := labels } : types.MetricMapping)), none) ∧
      ∀ event ∈ eventKinds,
        ∃ dynamicLabels,
          MatchString ("ratelimit.service.rate_limit." ++ domain ++ "." ++ token
              ++ "." ++ event) g.Spec.DetailedMetric
            = .ok (pattern event, dynamicLabels) ∧
          labels = mergeMaps (staticLabels serviceName g.Name identifier route) dynamicLabels := by
  refine ⟨mergeMaps (staticLabels serviceName g.Name identifier route)
      (compiledMatch (canonicalPath domain token "near_limit") g.Spec.DetailedMetric).2,
    fun event => (compiledMatch (canonicalPath domain token event) g.Spec.DetailedMetric).1, ?_, ?_⟩
  · rw [NewMetricMappingFromGlobalRateLimit_eq serviceName domain g identifier route hid hr
      (nonnil_of_encoder_ok _ _ _ htok)]
    have hmap : ∀ f h : String → types.MetricMapping, (∀ e ∈ eventKinds, f e = h e) →
        (Except.ok (eventKinds.map f, none) : Except Panic (List types.MetricMapping × error))
          = .ok (eventKinds.map h, none) := by
      intro f h hfh
      rw [List.map_congr_left hfh]
    apply hmap
    intro event he
    simp only [eventRule, encodedToken_eq _ _ _ htok, compiledMatch_labels_event domain _ event g.Spec.DetailedMetric
      (eventKinds_no_dot event he)]
  · intro event he
    refine ⟨(compiledMatch (canonicalPath domain token event) g.Spec.DetailedMetric).2, ?_, ?_⟩
    · exact MatchString_canonicalPath domain _ event g.Spec.DetailedMetric
    · rw [compiledMatch_labels_event domain _ event g.Spec.DetailedMetric
        (eventKinds_no_dot event he)]

/-- Witness of C19: a descriptor with detailed metrics and one generic-key action. -/
theorem six_blocks_uniform_witness :
    (genericKeyDescriptor "n" "foo" "bar" "v1" true).Spec.Identifier = some "foo" ∧
    (genericKeyDescriptor "n" "foo" "bar" "v1" true).Spec.Selector.Route = some "bar" ∧
    NewStatsdRegexMatcherFromGlobalRateLimitMatcher
        (genericKeyDescriptor "n" "foo" "bar" "v1" true).Spec.Matcher
        (genericKeyDescriptor "n" "foo" "bar" "v1" true).Spec.DetailedMetric
      = .ok "generic_key_v1" ∧
    ∃ (labels : prometheus.Labels) (pattern : String → String),
      NewMetricMappingFromGlobalRateLimit "svc" "foo" (genericKeyDescriptor "n" "foo" "bar" "v1" true)
        = .ok (eventKinds.map (fun event =>
            ({ Name := "ratelimit_service_rate_limit_" ++ event
               Match := pattern event
               MatchType :=
                if (genericKeyDescriptor "n" "foo" "bar" "v1" true).Spec.DetailedMetric then "regex"
                else ""
               TimerType := types.ObserverTypeHistogram
               Labels := labels } : types.MetricMapping)), none) ∧
      ∀ event ∈ eventKinds,
        ∃ dynamicLabels,
          MatchString ("ratelimit.service.rate_limit." ++ "foo" ++ "." ++ "generic_key_v1"
              ++ "." ++ event) (genericKeyDescriptor "n" "foo" "bar" "v1" true).Spec.DetailedMetric
            = .ok (pattern event, dynamicLabels) ∧
          labels = mergeMaps (staticLabels "svc"
            (genericKeyDescriptor "n" "foo" "bar" "v1" true).Name "foo" "bar") dynamicLabels :=
  ⟨rfl, rfl, by decide,
    six_blocks_uniform "svc" "foo" (genericKeyDescriptor "n" "foo" "bar" "v1" true)
      "foo" "bar" "generic_key_v1" rfl rfl (by decide)⟩

/-! ## Range of the slice `parts[:4]` -/

/-- C20: for every domain, event kind and action sequence the encoder encodes to a
token, the canonical path has at least six dot-separated segments, its last segment is
the event kind, and `MatchString` in detailed mode returns on it (the slice `parts[:4]`
is in range); the encoder encodes every sequence of non-nil action pointers; whereas on
a string with fewer than four segments `MatchString s true` panics with a slice out of
range. -/
theorem canonical_path_segments :
    (∀ (domain : String) (matchers : List (Option v1alpha1.GlobalRateLimit_Action))
      (detailed : Bool) (token : String),
      NewStatsdRegexMatcherFromGlobalRateLimitMatcher matchers detailed = .ok token →
      ∀ event ∈ eventKinds,
        6 ≤ (strings.Split ("ratelimit.service.rate_limit." ++ domain ++ "." ++ token
            ++ "." ++ event) '.').length ∧
        (strings.Split ("ratelimit.service.rate_limit." ++ domain ++ "." ++ token
            ++ "." ++ event) '.').getLast? = some event ∧
        ∃ r, MatchString ("ratelimit.service.rate_limit." ++ domain ++ "." ++ token
            ++ "." ++ event) true = .ok r) ∧
    (∀ (actions : List v1alpha1.GlobalRateLimit_Action) (detailed : Bool),
      ∃ token, NewStatsdRegexMatcherFromGlobalRateLimitMatcher (actions.map some) detailed
        = .ok token) ∧
    (∀ s : String, (strings.Split s '.').length < 4 →
      MatchString s true = .error .sliceBoundsOutOfRange) := by
  refine ⟨?_, ?_, MatchString_short⟩
  · intro domain matchers detailed token _ event he
    have hlen := canonicalPath_length domain token event
    refine ⟨hlen, ?_, _, MatchString_canonicalPath domain _ event true⟩
    show (strings.Split (canonicalPath domain _ event) '.').getLast? = some event
    rw [Split_canonicalPath, Split_eq_single _ _ (eventKinds_no_dot event he)]
    have e : ∀ a b : List String, "ratelimit" :: "service" :: "rate_limit" :: (a ++ b ++ [event])
        = ("ratelimit" :: "service" :: "rate_limit" :: (a ++ b)) ++ [event] := by
      intro a b; simp
    rw [e, List.getLast?_concat]
  · intro actions detailed
    exact ⟨_, encoder_map_some actions detailed⟩

/-- Witness of C20: the empty action sequence with an empty domain, and a string of three
segments. -/
theorem canonical_path_segments_witness :
    (NewStatsdRegexMatcherFromGlobalRateLimitMatcher [] true = .ok "" ∧
      "near_limit" ∈ eventKinds ∧
      6 ≤ (strings.Split ("ratelimit.service.rate_limit." ++ "" ++ "." ++ ""
          ++ "." ++ "near_limit") '.').length ∧
      (strings.Split ("ratelimit.service.rate_limit." ++ "" ++ "." ++ ""
          ++ "." ++ "near_limit") '.').getLast? = some "near_limit" ∧
      ∃ r, MatchString ("ratelimit.service.rate_limit." ++ "" ++ "." ++ ""
          ++ "." ++ "near_limit") true = .ok r) ∧
    ((strings.Split "ratelimit.service.rate_limit" '.').length < 4 ∧
      MatchString "ratelimit.service.rate_limit" true = .error .sliceBoundsOutOfRange) :=
  ⟨⟨rfl, by decide, canonical_path_segments.1 "" [] true "" rfl "near_limit" (by decide)⟩,
    ⟨by decide, canonical_path_segments.2.2 "ratelimit.service.rate_limit" (by decide)⟩⟩

end Service
